import Mathlib

/-!
Verification of the condition-extraction / multi-turn merging engine of the
rental-agent service (`agent_server.py`).

The Python source is shallowly embedded: Python strings are modelled as
`String` (processed through their character list `String.data`), Python dicts
with string keys as insertion-ordered association lists with Python's
update-in-place / append-if-new semantics (`dictSet`), JSON values returned by
the listing-API collaborator as the inductive `JVal`, and the collaborator
itself (`run_tool`, which shells out to `tools/rental_api.py`) as an oracle
function `ToolCall → JObj`.  The specific regular expressions of the source
are embedded as dedicated character-list scanners implementing Python `re`
semantics (leftmost match, ordered alternation, greedy quantifiers) for those
patterns; wherever greedy backtracking provably cannot change the outcome for
a pattern this is noted at the definition.
-/

namespace Dasai

/-- Python strings are processed as their character lists. -/
abbrev Str := List Char

/-- Whitespace for Python's `str.strip()` / regex `\s` (ASCII subset; the
claims only involve ASCII/CJK text where this coincides with Python). -/
def isWs (c : Char) : Bool :=
  c = ' ' ∨ c = '\t' ∨ c = '\n' ∨ c = '\r' ∨ c = '\x0b' ∨ c = '\x0c'

/-- `str.strip()` on a character list: drop whitespace from both ends. -/
def stripL (l : Str) : Str :=
  ((l.dropWhile isWs).reverse.dropWhile isWs).reverse

/-- `str.strip()` at `String` level. -/
def stripS (s : String) : String := ⟨stripL s.data⟩

/-- Python's substring test `needle in hay`. -/
def containsSub (needle : Str) : Str → Bool
  | [] => needle.isPrefixOf []
  | c :: rest => needle.isPrefixOf (c :: rest) || containsSub needle rest

/-- ASCII lowercasing of one character. -/
def asciiLowerChar (c : Char) : Char :=
  if 'A' ≤ c ∧ c ≤ 'Z' then Char.ofNat (c.toNat + 32) else c

/-- `str.lower()` restricted to ASCII letters (the source only lowercases to
look for the ASCII keyword "init" and `float()` keywords; CJK characters are
unaffected by `str.lower`). -/
def asciiLower (s : String) : String :=
  ⟨s.data.map asciiLowerChar⟩

/-- `int()` of a nonempty ASCII digit capture (all captures fed to `int` in
the source come from `\d+`/`\d` groups). -/
def natOfDigits (l : Str) : Nat :=
  l.foldl (fun n c => n * 10 + (c.toNat - 48)) 0

/-- Decimal digits of a natural number (fuel-driven so that it reduces in the
kernel); `natRender n = (str(n)).data` for `n : Nat`. -/
def natRenderAux : Nat → Nat → Str
  | 0, _ => []
  | fuel + 1, n =>
    if n < 10 then [Char.ofNat (48 + n)]
    else natRenderAux fuel (n / 10) ++ [Char.ofNat (48 + n % 10)]

/-- `str(n)` for a Python `int` modelled as `Nat`. -/
def natRender (n : Nat) : Str := natRenderAux (n + 1) n

/-- `str(n)` for a Python `int` modelled as `Int`. -/
def intRender : Int → Str
  | Int.ofNat n => natRender n
  | Int.negSucc n => '-' :: natRender (n + 1)

/-- `dict.fromkeys` de-duplication: keep the first occurrence of each element
(elements already in `seen` are dropped). -/
def dedupAux (seen : List Str) : List Str → List Str
  | [] => []
  | x :: xs => if x ∈ seen then dedupAux seen xs else x :: dedupAux (x :: seen) xs

/-- First-occurrence de-duplication, as performed by
`dict.fromkeys(...)` in the district accumulation. -/
def dedupFirst (l : List Str) : List Str := dedupAux [] l

/-- `"...".split(",")` on a character list. -/
def splitComma : Str → List Str
  | [] => [[]]
  | c :: rest =>
    if c = ',' then [] :: splitComma rest
    else
      match splitComma rest with
      | [] => [[c]]
      | p :: ps => (c :: p) :: ps

/-- `",".join(...)` on character lists. -/
def joinComma : List Str → Str
  | [] => []
  | [p] => p
  | p :: q :: ps => p ++ ',' :: joinComma (q :: ps)

/-- Python slice `l[-k:]` for `k > 0`: the last `k` elements. -/
def lastN (k : Nat) (l : List α) : List α := (l.reverse.take k).reverse

/-- Values stored in a condition map.  `vnum` models a finite Python float as
an exact rational (non-finite floats and container values are outside the
model). -/
inductive PyVal where
  | vnull
  | vstr (s : String)
  | vint (n : Int)
  | vnum (q : ℚ)
deriving DecidableEq

/-- A Python dict from string keys to condition values, as an
insertion-ordered association list (Python dicts preserve insertion order and
update values in place). -/
abbrev CondMap := List (String × PyVal)

/-- `d[k] = v` on an insertion-ordered dict: update in place if the key
exists, append otherwise. -/
def dictSet : CondMap → String → PyVal → CondMap
  | [], k, v => [(k, v)]
  | (k0, v0) :: rest, k, v =>
    if k0 = k then (k, v) :: rest else (k0, v0) :: dictSet rest k v

/-- `d.get(k)` on an insertion-ordered dict. -/
def cmGet : CondMap → String → Option PyVal
  | [], _ => none
  | (k0, v) :: rest, k => if k0 = k then some v else cmGet rest k

/-- Python truthiness of a condition value. -/
def pyTruthy : PyVal → Bool
  | .vnull => false
  | .vstr s => s ≠ ""
  | .vint n => n ≠ 0
  | .vnum q => q ≠ 0

/-- `d.get(k)` when the caller immediately tests truthiness
(`if conditions.get(k):`): the value when present and truthy. -/
def cmGetTruthy (m : CondMap) (k : String) : Option PyVal :=
  match cmGet m k with
  | some v => if pyTruthy v then some v else none
  | none => none

/-- The string a condition value is used as where the source requires a
string (e.g. `"站" in landmark`).  For a non-string value Python would raise
`TypeError` there; the claims are stated for string-valued fields only. -/
def pyAsStr : PyVal → Str
  | .vstr s => s.data
  | _ => []

/-- `str(v)` for a condition value as used when assembling CLI arguments
(always applied to `int` values in the source; the float rendering is
abstracted and unreachable in the verified claims). -/
def pyStrOf : PyVal → String
  | .vnull => "None"
  | .vstr s => s
  | .vint n => ⟨intRender n⟩
  | .vnum q => toString q

/-- The sixteen-field schema shared by the extractor prompt, the rule
extractor and the normalizer's `allowed` set (`agent_server.py` lines
279-284). -/
def FIELD_NAMES : List String :=
  ["district", "area", "min_price", "max_price", "bedrooms", "rental_type",
   "max_subway_dist", "subway_station", "commute_to_xierqi_max",
   "decoration", "orientation", "elevator", "min_area", "max_area",
   "community", "landmark_nearby"]

/-- The five integer-coerced fields of `_normalize_llm_conditions`
(line 289 lists six names). -/
def INT_FIELDS : List String :=
  ["min_price", "max_price", "max_subway_dist", "commute_to_xierqi_max",
   "min_area", "max_area"]

/-- `DISTRICTS_RE` (line 97): the 11 Beijing district names, in the
alternation order of the regex. -/
def DISTRICTS : List Str :=
  ["海淀".data, "朝阳".data, "西城".data, "东城".data, "丰台".data,
   "通州".data, "昌平".data, "大兴".data, "房山".data, "顺义".data,
   "石景山".data]

/-- `LANDMARK_NAMES` (line 99), in alternation order.  Note that 西二旗
precedes 西二旗站 (and 国贸 precedes 国贸站), so the shorter alternative
always wins at a shared start position, exactly as in Python's ordered
alternation. -/
def LANDMARKS : List Str :=
  ["西二旗".data, "上地".data, "国贸".data, "望京".data, "中关村".data,
   "五道口".data, "西二旗站".data, "车公庄站".data, "国贸站".data]

/-- `re.finditer` over an alternation of literal alternatives: scan left to
right; at each position the first alternative that matches wins and the scan
resumes after the match (`skip` counts positions still inside the previous
match). -/
def finditerAux (alts : List Str) : Str → Nat → List Str
  | [], _ => []
  | _ :: rest, skip + 1 => finditerAux alts rest skip
  | c :: rest, 0 =>
    match alts.find? (fun a => a.isPrefixOf (c :: rest)) with
    | some a => a :: finditerAux alts rest (a.length - 1)
    | none => finditerAux alts rest 0

/-- All matches of the literal alternation `alts` in `l`, leftmost first. -/
def finditerAlts (alts : List Str) (l : Str) : List Str := finditerAux alts l 0

/-!  Price pattern (line 157):
`(?:预算|租金?|价格?)?\s*(\d+)\s*以内|不超过\s*(\d+)|(\d+)\s*元?(?:/月)?`.
Backtracking note: in the first alternative the greedy `\s*`/`\d+` never need
to give characters back — any shorter take leaves a whitespace or digit
character where `以` is required — so maximal munch is exact.  The optional
keyword group tries its alternatives (with the inner greedy `?`) in order
预算, 租金, 租, 价格, 价 and finally the empty string, falling through when
the continuation fails. -/

def PRICE_KW_CANDS : List Str :=
  ["预算".data, "租金".data, "租".data, "价格".data, "价".data, []]

/-- Continuation `\s*(\d+)\s*以内` of the first price alternative. -/
def priceAlt1After (l : Str) : Option Nat :=
  let r1 := l.dropWhile isWs
  let ds := r1.takeWhile Char.isDigit
  if ds = [] then none
  else
    let r2 := (r1.drop ds.length).dropWhile isWs
    if "以内".data.isPrefixOf r2 then some (natOfDigits ds) else none

/-- First price alternative `(?:预算|租金?|价格?)?\s*(\d+)\s*以内` at a
position. -/
def priceAlt1 (l : Str) : Option Nat :=
  PRICE_KW_CANDS.findSome? fun p =>
    if p.isPrefixOf l then priceAlt1After (l.drop p.length) else none

/-- Second price alternative `不超过\s*(\d+)` at a position. -/
def priceAlt2 (l : Str) : Option Nat :=
  if "不超过".data.isPrefixOf l then
    let r := (l.drop 3).dropWhile isWs
    let ds := r.takeWhile Char.isDigit
    if ds = [] then none else some (natOfDigits ds)
  else none

/-- Third price alternative `(\d+)\s*元?(?:/月)?` at a position: any bare
digit run matches; only the digit group is captured. -/
def priceAlt3 (l : Str) : Option Nat :=
  let ds := l.takeWhile Char.isDigit
  if ds = [] then none else some (natOfDigits ds)

/-- The price alternation at one position (alternatives in regex order). -/
def priceMatchAt (l : Str) : Option Nat :=
  match priceAlt1 l with
  | some n => some n
  | none =>
    match priceAlt2 l with
    | some n => some n
    | none => priceAlt3 l

/-- `re.search` of the price pattern: leftmost matching position wins. -/
def priceSearch : Str → Option Nat
  | [] => none
  | c :: rest =>
    match priceMatchAt (c :: rest) with
    | some n => some n
    | none => priceSearch rest

/-- Range pattern `(\d+)\s*[-~到]\s*(\d+)\s*元?` (line 160) at one position.
Greedy `\d+` is exact here: any shorter take leaves a digit where the
separator class or `平`/end is required. -/
def rangeMatchAt (l : Str) : Option (Nat × Nat) :=
  let d1 := l.takeWhile Char.isDigit
  if d1 = [] then none
  else
    match (l.drop d1.length).dropWhile isWs with
    | c :: r2 =>
      if c = '-' ∨ c = '~' ∨ c = '到' then
        let r3 := r2.dropWhile isWs
        let d2 := r3.takeWhile Char.isDigit
        if d2 = [] then none else some (natOfDigits d1, natOfDigits d2)
      else none
    | [] => none

/-- `re.search` of the price range pattern. -/
def rangeSearch : Str → Option (Nat × Nat)
  | [] => none
  | c :: rest =>
    match rangeMatchAt (c :: rest) with
    | some p => some p
    | none => rangeSearch rest

/-- Bedroom numeral map (line 169): 一→1, 二→2, 两→2, 三→3. -/
def CN_NUM : List (Char × Nat) := [('一', 1), ('二', 2), ('两', 2), ('三', 3)]

/-- Bedroom pattern `([一二两三])\s*居|(\d)\s*室|([一二两三])\s*室`
(line 165) at one position, returning the stored `bedrooms` string
(`str(num_map[c])` for the numeral groups, the digit itself for group 2). -/
def bedroomsMatchAt (l : Str) : Option String :=
  match l with
  | [] => none
  | c :: rest =>
    let a1 : Option String :=
      match List.lookup c CN_NUM with
      | some n =>
        match rest.dropWhile isWs with
        | '居' :: _ => some ⟨natRender n⟩
        | _ => none
      | none => none
    match a1 with
    | some s => some s
    | none =>
      let a2 : Option String :=
        if c.isDigit then
          match rest.dropWhile isWs with
          | '室' :: _ => some ⟨[c]⟩
          | _ => none
        else none
      match a2 with
      | some s => some s
      | none =>
        match List.lookup c CN_NUM with
        | some n =>
          match rest.dropWhile isWs with
          | '室' :: _ => some ⟨natRender n⟩
          | _ => none
        | none => none

/-- `re.search` of the bedroom pattern. -/
def bedroomsSearch : Str → Option String
  | [] => none
  | c :: rest =>
    match bedroomsMatchAt (c :: rest) with
    | some s => some s
    | none => bedroomsSearch rest

/-- One alternative `kw\s*(\d+)\s*分钟` of the commute pattern (line 186). -/
def commuteAlt (kw : Str) (l : Str) : Option Nat :=
  if kw.isPrefixOf l then
    let r := (l.drop kw.length).dropWhile isWs
    let ds := r.takeWhile Char.isDigit
    if ds = [] then none
    else if "分钟".data.isPrefixOf ((r.drop ds.length).dropWhile isWs) then
      some (natOfDigits ds)
    else none
  else none

/-- Commute alternation
`西二旗\s*(\d+)\s*分钟|到西二旗\s*(\d+)\s*分钟|通勤\s*(\d+)\s*分钟` at one
position. -/
def commuteMatchAt (l : Str) : Option Nat :=
  match commuteAlt "西二旗".data l with
  | some n => some n
  | none =>
    match commuteAlt "到西二旗".data l with
    | some n => some n
    | none => commuteAlt "通勤".data l

/-- `re.search` of the commute pattern. -/
def commuteSearch : Str → Option Nat
  | [] => none
  | c :: rest =>
    match commuteMatchAt (c :: rest) with
    | some n => some n
    | none => commuteSearch rest

/-- First area alternative `(\d+)\s*平(?:米)?\s*以内` (line 203); the greedy
`(?:米)?` tries consuming 米 first and falls back. -/
def areaMaxAlt1 (l : Str) : Option Nat :=
  let ds := l.takeWhile Char.isDigit
  if ds = [] then none
  else
    match (l.drop ds.length).dropWhile isWs with
    | '平' :: r2 =>
      let withMi : Option Nat :=
        match r2 with
        | '米' :: r3 =>
          if "以内".data.isPrefixOf (r3.dropWhile isWs) then some (natOfDigits ds) else none
        | _ => none
      match withMi with
      | some n => some n
      | none =>
        if "以内".data.isPrefixOf (r2.dropWhile isWs) then some (natOfDigits ds) else none
    | _ => none

/-- Second area alternative `不超过\s*(\d+)\s*平`. -/
def areaMaxAlt2 (l : Str) : Option Nat :=
  if "不超过".data.isPrefixOf l then
    let r := (l.drop 3).dropWhile isWs
    let ds := r.takeWhile Char.isDigit
    if ds = [] then none
    else
      match (r.drop ds.length).dropWhile isWs with
      | '平' :: _ => some (natOfDigits ds)
      | _ => none
  else none

/-- `re.search` of the area at-most pattern. -/
def areaMaxSearch : Str → Option Nat
  | [] => none
  | c :: rest =>
    match
      (match areaMaxAlt1 (c :: rest) with
       | some n => some n
       | none => areaMaxAlt2 (c :: rest)) with
    | some n => some n
    | none => areaMaxSearch rest

/-- Area range pattern `(\d+)\s*[-~到]\s*(\d+)\s*平` (line 206) at one
position. -/
def areaRangeMatchAt (l : Str) : Option (Nat × Nat) :=
  let d1 := l.takeWhile Char.isDigit
  if d1 = [] then none
  else
    match (l.drop d1.length).dropWhile isWs with
    | c :: r2 =>
      if c = '-' ∨ c = '~' ∨ c = '到' then
        let r3 := r2.dropWhile isWs
        let d2 := r3.takeWhile Char.isDigit
        if d2 = [] then none
        else
          match ((r3.drop d2.length).dropWhile isWs) with
          | '平' :: _ => some (natOfDigits d1, natOfDigits d2)
          | _ => none
      else none
    | [] => none

/-- `re.search` of the area range pattern. -/
def areaRangeSearch : Str → Option (Nat × Nat)
  | [] => none
  | c :: rest =>
    match areaRangeMatchAt (c :: rest) with
    | some p => some p
    | none => areaRangeSearch rest

/-- Character class `[^」"'\s]` of the community pattern (line 211). -/
def commAllowed (c : Char) : Bool :=
  ¬ (c = '」' ∨ c = '"' ∨ c = '\x27' ∨ isWs c = true)

/-- First community alternative `(?:小区|小区名)\s*[「"']?([^」"'\s]+)`.
The alternative 小区名 can never be needed: 小区 is a prefix of it and the
capture class accepts 名, so the 小区 continuation succeeds whenever 小区名
matches.  The optional opening-quote is greedy with fall-back. -/
def communityAlt1 (l : Str) : Option Str :=
  if "小区".data.isPrefixOf l then
    let r := (l.drop 2).dropWhile isWs
    match r with
    | c :: r2 =>
      if c = '「' ∨ c = '"' ∨ c = '\x27' then
        let cap := r2.takeWhile commAllowed
        if cap ≠ [] then some cap
        else
          let cap2 := r.takeWhile commAllowed
          if cap2 ≠ [] then some cap2 else none
      else
        let cap := r.takeWhile commAllowed
        if cap ≠ [] then some cap else none
    | [] => none
  else none

/-- Second community alternative `([^\s]+)\s*小区`: the greedy non-space run
is shrunk from the right until the remainder (with `\s*` matching empty
inside the run) starts with 小区. -/
def communityAlt2 (l : Str) : Option Str :=
  let run := l.takeWhile (fun c => ¬ isWs c = true)
  if run = [] then none
  else
    let rest := l.drop run.length
    (List.range run.length).reverse.findSome? fun i =>
      let k := i + 1
      let tl := if k = run.length then rest.dropWhile isWs else run.drop k
      if "小区".data.isPrefixOf tl then some (run.take k) else none

/-- Community alternation at one position. -/
def communityMatchAt (l : Str) : Option Str :=
  match communityAlt1 l with
  | some s => some s
  | none => communityAlt2 l

/-- `re.search` of the community pattern. -/
def communitySearch : Str → Option Str
  | [] => none
  | c :: rest =>
    match communityMatchAt (c :: rest) with
    | some s => some s
    | none => communitySearch rest

/-- `.strip("「」\"'")` applied to the community capture (line 213). -/
def isCommQuote (c : Char) : Bool := c = '「' ∨ c = '」' ∨ c = '"' ∨ c = '\x27'

/-- Strip quote/bracket punctuation from both ends. -/
def stripQuotes (l : Str) : Str :=
  ((l.dropWhile isCommQuote).reverse.dropWhile isCommQuote).reverse

/-! The rule extractor `extract_conditions` (lines 133-215), as a pipeline of
per-field steps applied in source order to the stripped input. -/

/-- One iteration of the district accumulation loop (lines 139-144). -/
def districtStepOne (cs : CondMap) (d : Str) : CondMap :=
  match cmGet cs "district" with
  | none => dictSet cs "district" (.vstr ⟨d⟩)
  | some v =>
    dictSet cs "district" (.vstr ⟨joinComma (dedupFirst (splitComma (pyAsStr v) ++ [d]))⟩)

/-- District detection and accumulation plus the final re-deduplication
(lines 138-146). -/
def stepDistrict (t : Str) (cs : CondMap) : CondMap :=
  let cs1 := (finditerAlts DISTRICTS t).foldl districtStepOne cs
  match cmGet cs1 "district" with
  | some v =>
    if ',' ∈ pyAsStr v then
      dictSet cs1 "district" (.vstr ⟨joinComma (dedupFirst (splitComma (pyAsStr v)))⟩)
    else cs1
  | none => cs1

/-- One iteration of the landmark loop (lines 149-154); note that
`name if "站" in name else f"{name}"` is `name` in both branches, and the
`area` guard is evaluated after `landmark_nearby` may have been set in the
same iteration. -/
def landmarkStepOne (t : Str) (cs : CondMap) (name : Str) : CondMap :=
  let cs1 :=
    if containsSub "附近".data t || containsSub "边上".data t || containsSub "周边".data t then
      dictSet cs "landmark_nearby" (.vstr ⟨name⟩)
    else cs
  if (cmGet cs1 "area").isNone ∧ (cmGet cs1 "landmark_nearby").isNone then
    dictSet cs1 "area" (.vstr ⟨name⟩)
  else cs1

/-- Landmark / commercial-area detection (lines 148-154). -/
def stepLandmark (t : Str) (cs : CondMap) : CondMap :=
  (finditerAlts LANDMARKS t).foldl (landmarkStepOne t) cs

/-- Price at-most rule (lines 157-159). -/
def stepPriceMax (t : Str) (cs : CondMap) : CondMap :=
  match priceSearch t with
  | some n => dictSet cs "max_price" (.vint n)
  | none => cs

/-- Price range rule (lines 160-162); the tuple assignment writes
`min_price` first, then `max_price`. -/
def stepPriceRange (t : Str) (cs : CondMap) : CondMap :=
  match rangeSearch t with
  | some (a, b) => dictSet (dictSet cs "min_price" (.vint a)) "max_price" (.vint b)
  | none => cs

/-- Bedroom rule (lines 165-173). -/
def stepBedrooms (t : Str) (cs : CondMap) : CondMap :=
  match bedroomsSearch t with
  | some s => dictSet cs "bedrooms" (.vstr s)
  | none => cs

/-- Rental-type keywords (lines 176-179); 合租 overrides 整租 when both
occur. -/
def stepRentalType (t : Str) (cs : CondMap) : CondMap :=
  let cs1 :=
    if containsSub "整租".data t then dictSet cs "rental_type" (.vstr "整租") else cs
  if containsSub "合租".data t then dictSet cs1 "rental_type" (.vstr "合租") else cs1

/-- Near-subway keywords (lines 182-183). -/
def stepSubway (t : Str) (cs : CondMap) : CondMap :=
  if containsSub "近地铁".data t || containsSub "离地铁近".data t ||
      containsSub "地铁附近".data t then
    dictSet cs "max_subway_dist" (.vint 800)
  else cs

/-- Commute rule (lines 186-188). -/
def stepCommute (t : Str) (cs : CondMap) : CondMap :=
  match commuteSearch t with
  | some n => dictSet cs "commute_to_xierqi_max" (.vint n)
  | none => cs

/-- Decoration keywords (lines 191-194). -/
def stepDecoration (t : Str) (cs : CondMap) : CondMap :=
  let cs1 :=
    if containsSub "精装".data t then dictSet cs "decoration" (.vstr "精装") else cs
  if containsSub "简装".data t then dictSet cs1 "decoration" (.vstr "简装") else cs1

/-- Orientation keywords (lines 195-196). -/
def stepOrientation (t : Str) (cs : CondMap) : CondMap :=
  if containsSub "朝南".data t || containsSub "南向".data t then
    dictSet cs "orientation" (.vstr "朝南")
  else cs

/-- Elevator keywords (lines 197-200). -/
def stepElevator (t : Str) (cs : CondMap) : CondMap :=
  let cs1 :=
    if containsSub "有电梯".data t || containsSub "带电梯".data t then
      dictSet cs "elevator" (.vstr "true")
    else cs
  if containsSub "无电梯".data t then dictSet cs1 "elevator" (.vstr "false") else cs1

/-- Area at-most rule (lines 203-205). -/
def stepAreaMax (t : Str) (cs : CondMap) : CondMap :=
  match areaMaxSearch t with
  | some n => dictSet cs "max_area" (.vint n)
  | none => cs

/-- Area range rule (lines 206-208). -/
def stepAreaRange (t : Str) (cs : CondMap) : CondMap :=
  match areaRangeSearch t with
  | some (a, b) => dictSet (dictSet cs "min_area" (.vint a)) "max_area" (.vint b)
  | none => cs

/-- Community rule (lines 211-213). -/
def stepCommunity (t : Str) (cs : CondMap) : CondMap :=
  match communitySearch t with
  | some cap => dictSet cs "community" (.vstr ⟨stripQuotes cap⟩)
  | none => cs

/-- `extract_conditions(text)` (lines 133-215): strip the input, then apply
the ordered rules, starting from the empty condition map. -/
def extract_conditions (text : String) : CondMap :=
  let t := stripL text.data
  stepCommunity t (stepAreaRange t (stepAreaMax t (stepElevator t (stepOrientation t
    (stepDecoration t (stepCommute t (stepSubway t (stepRentalType t (stepBedrooms t
      (stepPriceRange t (stepPriceMax t (stepLandmark t (stepDistrict t [])))))))))))))

/-! ### The normalizer and the merger (lines 265-298) -/

/-- A Python `float` result: a finite value (idealized as the exact rational
the literal denotes), an infinity, or NaN. -/
inductive PyFloat where
  | finite (q : ℚ)
  | inf
  | ninf
  | nan
deriving DecidableEq

/-- The uncaught exceptions the embedded fragments can raise: `OverflowError`
from `int()` of an infinite float or `float()` of an out-of-range integer
(lines 290-292 catch only `TypeError`/`ValueError`), `TypeError` from
assembling subprocess arguments out of a non-`str` value (`run_tool` catches
only `TimeoutExpired`/`FileNotFoundError`) or from `"站" in landmark` on a
non-string, and `AttributeError` from `.get` on a non-dict list element
(line 320). -/
inductive PyErr where
  | overflowError
  | typeError
  | attributeError
deriving DecidableEq

/-- The IEEE-754 double overflow threshold: decimal-to-double conversion
rounds to an infinity exactly when the magnitude reaches `2^1024 - 2^970`
(the midpoint above the largest finite double, which round-half-even sends
up).  Written as a digit literal so that the kernel evaluates comparisons
against it directly; `FLOAT_OVERFLOW_eq` certifies the literal. -/
def FLOAT_OVERFLOW : ℚ := ((179769313486231580793728971405303415079934132710037826936173778980444968292764750946649017977587207096330286416692887910946555547851940402630657488671505820681908902000708383676273854845817711531764475730270069855571366959622842914819860834936475292719074168444365510704342711559699508093042880177904174497792 : Nat) : ℚ)

/-- Powers of ten with quarter-depth structural recursion (so that kernel
evaluation of exponents in the hundreds stays within the recursion limit). -/
def pow10 : Nat → Nat
  | 0 => 1
  | 1 => 10
  | 2 => 100
  | 3 => 1000
  | n + 4 => 10000 * pow10 n

/-- Continuation of a digit run with Python's underscore separators (single
underscores between digits only); called after one digit has been consumed.
Greedy; an ill-placed underscore is left in the remainder, so the caller's
whole-string check rejects it exactly as `float()` does. -/
def usDigitsAux : Str → List Char × Str
  | [] => ([], [])
  | [c] => if c.isDigit then ([c], []) else ([], [c])
  | c :: d :: rest =>
    if c.isDigit then
      let p := usDigitsAux (d :: rest)
      (c :: p.1, p.2)
    else if c = '_' ∧ d.isDigit then
      let p := usDigitsAux rest
      (d :: p.1, p.2)
    else ([], c :: d :: rest)

/-- A digit run with underscore separators; the run must start with a digit
(a leading underscore is a `ValueError` in `float()`). -/
def usDigits (l : Str) : List Char × Str :=
  match l with
  | c :: rest =>
    if c.isDigit then
      let p := usDigitsAux rest
      (c :: p.1, p.2)
    else ([], l)
  | [] => ([], [])

/-- Classify an exactly-computed decimal value as a double: magnitudes at or
beyond the overflow threshold convert to an infinity (`float("1e400")` is
`inf`), the rest stay finite (rounding idealized as exact). -/
def floatOfRat (q : ℚ) : PyFloat :=
  if FLOAT_OVERFLOW ≤ q then .inf
  else if q ≤ -FLOAT_OVERFLOW then .ninf
  else .finite q

/-- `±(d * 10^e)` as an exact rational, computed with integer arithmetic
(so that the kernel evaluates it without rational multiplication). -/
def decRat (neg : Bool) (d : Nat) (e : Int) : ℚ :=
  let m : ℚ :=
    if 0 ≤ e then ((d * pow10 e.toNat : Nat) : ℚ) else mkRat d (pow10 (-e).toNat)
  if neg then -m else m

/-- The decimal-literal part of `float(string)` after sign extraction:
optional integer part, fraction and exponent, each a digit run with
underscore separators; the whole remainder must be consumed.  The digits
before and after the point joined are `d`, and the value is
`±(d * 10^(exponent - |fraction|))`.  Finite results are classified through
`floatOfRat`. -/
def parseDecimal (neg : Bool) (l1 : Str) : Option PyFloat :=
  let ipP := usDigits l1
  let ip := ipP.1
  let l2 := ipP.2
  let fpP : List Char × Str :=
    match l2 with
    | '.' :: r => usDigits r
    | _ => ([], l2)
  let fp := fpP.1
  let l3 := fpP.2
  if ip = [] ∧ fp = [] then none
  else
    let d : Nat := natOfDigits (ip ++ fp)
    match l3 with
    | [] => some (floatOfRat (decRat neg d (-(fp.length : Int))))
    | 'e' :: r | 'E' :: r =>
      let esgnRest : Int × Str :=
        match r with
        | '-' :: rr => (-1, rr)
        | '+' :: rr => (1, rr)
        | _ => (1, r)
      let edP := usDigits esgnRest.2
      if edP.1 = [] ∨ edP.2 ≠ [] then none
      else
        some (floatOfRat (decRat neg d
          (esgnRest.1 * (natOfDigits edP.1 : Int) - (fp.length : Int))))
    | _ => none

/-- Python `float(string)`: after stripping, an optional sign, then the
keywords `inf`/`infinity`/`nan` in any letter case, or a decimal literal with
optional fraction, exponent and underscore digit separators; overflowing
magnitudes yield an infinity.  A parse failure (`none`) models `ValueError`. -/
def pyParseFloat (s : Str) : Option PyFloat :=
  let l := stripL s
  let sgnRest : Bool × Str :=
    match l with
    | '-' :: r => (true, r)
    | '+' :: r => (false, r)
    | _ => (false, l)
  let low := sgnRest.2.map asciiLowerChar
  if low = "inf".data ∨ low = "infinity".data then
    some (if sgnRest.1 then .ninf else .inf)
  else if low = "nan".data then some .nan
  else parseDecimal sgnRest.1 sgnRest.2

/-- Python `int(float)` truncates toward zero. -/
def ratTrunc (q : ℚ) : Int := if q < 0 then ⌈q⌉ else ⌊q⌋

/-- `int(float(v))` (lines 289-291).  The `except` clause on lines 290-292
catches only `TypeError` and `ValueError`, giving `.ok none` (field skipped):
`float(None)` raises `TypeError`, a non-numeric string raises `ValueError`,
and `int(nan)` raises `ValueError`.  `int()` of an infinite float and
`float()` of an integer beyond the double range raise `OverflowError`, which
nothing catches: `.error`.  (`vnum` models a finite double, whose magnitude
is below the threshold; the guard marks the model boundary.) -/
def intOfFloatOf : PyVal → Except PyErr (Option Int)
  | .vint n => if FLOAT_OVERFLOW ≤ |(n : ℚ)| then .error .overflowError else .ok (some n)
  | .vnum q => if FLOAT_OVERFLOW ≤ |q| then .error .overflowError else .ok (some (ratTrunc q))
  | .vstr s =>
    match pyParseFloat s.data with
    | none => .ok none
    | some (.finite q) => .ok (some (ratTrunc q))
    | some .inf => .error .overflowError
    | some .ninf => .error .overflowError
    | some .nan => .ok none
  | .vnull => .ok none

/-- Bedrooms coercion (lines 294-295): `str(int(v))` for numeric values,
`str(v).strip()` for strings.  (`str(None) = "None"` is unreachable: null
values are filtered out beforehand.) -/
def bedroomsCoerce : PyVal → PyVal
  | .vint n => .vstr ⟨intRender n⟩
  | .vnum q => .vstr ⟨intRender (ratTrunc q)⟩
  | .vstr s => .vstr (stripS s)
  | .vnull => .vstr "None"

/-- Remaining-field coercion (line 297): `str(v).strip()` for strings, the
value unchanged otherwise. -/
def otherCoerce : PyVal → PyVal
  | .vstr s => .vstr (stripS s)
  | v => v

/-- The skip filter of `_normalize_llm_conditions` (line 287): key outside
the allowed set, `None`, equal to `""`, or a blank string. -/
def normSkip (k : String) (v : PyVal) : Bool :=
  !(FIELD_NAMES.contains k) || decide (v = .vnull) || decide (v = .vstr "") ||
    (match v with | .vstr s => decide (stripS s = "") | _ => false)

/-- One iteration of the normalizer loop (lines 286-297), value level: on
the uncaught-`OverflowError` inputs it skips the field (exception tracking is
in `normStepExc`; wherever the source returns, the two agree). -/
def normStep (conds : CondMap) (k : String) (v : PyVal) : CondMap :=
  if normSkip k v then conds
  else if INT_FIELDS.contains k then
    match intOfFloatOf v with
    | .ok (some n) => dictSet conds k (.vint n)
    | _ => conds
  else if k = "bedrooms" then dictSet conds k (bedroomsCoerce v)
  else dictSet conds k (otherCoerce v)

/-- `_normalize_llm_conditions(raw)` (lines 277-298), value level: the
result on inputs where no uncaught exception occurs (see
`_normalize_llm_conditions_exc` for exception tracking). -/
def _normalize_llm_conditions (raw : CondMap) : CondMap :=
  raw.foldl (fun conds kv => normStep conds kv.1 kv.2) []

/-- One iteration of the normalizer loop with the uncaught `OverflowError`
made explicit. -/
def normStepExc (conds : CondMap) (k : String) (v : PyVal) : Except PyErr CondMap :=
  if normSkip k v then .ok conds
  else if INT_FIELDS.contains k then
    match intOfFloatOf v with
    | .ok (some n) => .ok (dictSet conds k (.vint n))
    | .ok none => .ok conds
    | .error e => .error e
  else if k = "bedrooms" then .ok (dictSet conds k (bedroomsCoerce v))
  else .ok (dictSet conds k (otherCoerce v))

/-- The normalizer loop over the raw items, stopping at the first uncaught
exception. -/
def normFoldExc : CondMap → CondMap → Except PyErr CondMap
  | conds, [] => .ok conds
  | conds, kv :: rest =>
    match normStepExc conds kv.1 kv.2 with
    | .ok conds2 => normFoldExc conds2 rest
    | .error e => .error e

/-- `_normalize_llm_conditions(raw)` (lines 277-298) with exceptions:
`.error` when the loop raises an uncaught `OverflowError` (for example
`raw = {"min_price": "inf"}`), `.ok` with the result map when the source
returns. -/
def _normalize_llm_conditions_exc (raw : CondMap) : Except PyErr CondMap :=
  normFoldExc [] raw

/-- The skip filter of `_merge_conditions` (line 271): `None` or a blank
string is "no update". -/
def mergeSkip (v : PyVal) : Bool :=
  decide (v = .vnull) || (match v with | .vstr s => decide (stripS s = "") | _ => false)

/-- `_merge_conditions(previous, new)` (lines 265-274).  When `new` is empty
the source returns `dict(previous)` (or `{}` when `previous` is also empty),
which equals `previous` in both cases. -/
def _merge_conditions (previous new : CondMap) : CondMap :=
  if new = [] then previous
  else
    new.foldl
      (fun merged kv => if mergeSkip kv.2 then merged else dictSet merged kv.1 kv.2)
      previous

/-! ### The listing-API collaborator, query router and reply formatter -/

/-- JSON values returned by the listing-API collaborator. -/
inductive JVal where
  | jnull
  | jbool (b : Bool)
  | jint (n : Int)
  | jstr (s : String)
  | jarr (xs : List JVal)
  | jobj (fs : List (String × JVal))

/-- A JSON object (`run_tool` is declared to return a dict). -/
abbrev JObj := List (String × JVal)

/-- `d.get(k)` on a JSON object. -/
def jGet : JObj → String → Option JVal
  | [], _ => none
  | (k0, v) :: rest, k => if k0 = k then some v else jGet rest k

/-- Python truthiness of a JSON value. -/
def jTruthy : JVal → Bool
  | .jnull => false
  | .jbool b => b
  | .jint n => decide (n ≠ 0)
  | .jstr s => decide (s ≠ "")
  | .jarr xs => !xs.isEmpty
  | .jobj fs => !fs.isEmpty

/-- `d.get(k)` followed by use as a value: an absent key behaves as `None`
(both for truthiness tests and for string interpolation). -/
def jGetD (r : JObj) (k : String) : JVal := (jGet r k).getD .jnull

/-- Whether a tool result carries an error (`if res.get("error"):`). -/
def errTruthy (r : JObj) : Bool := jTruthy (jGetD r "error")

/-- `len()` of a JSON value where the source calls `len(items)` (lists in
practice; other shapes would raise `TypeError` in Python and are unreachable
in the verified claims). -/
def pyLenJ : JVal → Nat
  | .jarr xs => xs.length
  | .jstr s => s.length
  | .jobj fs => fs.length
  | _ => 0

mutual

/-- `repr()`-like rendering of a JSON value, used for values nested inside
containers; string-escaping subtleties are abstracted (the verified claims
never inspect rendered container text). -/
def pyReprJ : JVal → String
  | .jnull => "None"
  | .jbool true => "True"
  | .jbool false => "False"
  | .jint n => ⟨intRender n⟩
  | .jstr s => "\x27" ++ s ++ "\x27"
  | .jarr xs => "[" ++ pyReprList xs ++ "]"
  | .jobj fs => "\x7b" ++ pyReprFields fs ++ "\x7d"

/-- Comma-separated `repr` of list elements. -/
def pyReprList : List JVal → String
  | [] => ""
  | [x] => pyReprJ x
  | x :: y :: xs => pyReprJ x ++ ", " ++ pyReprList (y :: xs)

/-- Comma-separated `repr` of object fields. -/
def pyReprFields : List (String × JVal) → String
  | [] => ""
  | [p] => "\x27" ++ p.1 ++ "\x27: " ++ pyReprJ p.2
  | p :: q :: ps => "\x27" ++ p.1 ++ "\x27: " ++ pyReprJ p.2 ++ ", " ++ pyReprFields (q :: ps)

end

/-- `str()` / f-string rendering of a JSON value.  Exact for scalars
(`None`, `True`/`False`, ints, strings); containers use the `repr`-like
rendering above. -/
def pyStrJ : JVal → String
  | .jnull => "None"
  | .jbool true => "True"
  | .jbool false => "False"
  | .jint n => ⟨intRender n⟩
  | .jstr s => s
  | .jarr xs => pyReprJ (.jarr xs)
  | .jobj fs => pyReprJ (.jobj fs)

mutual

/-- `json.dumps(..., ensure_ascii=False, indent=2)`: exact for scalars and
the empty list (the only shapes that reach the final fall-through of
`format_reply`); the multi-line indent layout of non-empty containers is
abstracted to a flat rendering (unreachable there: non-empty lists take the
items branch and dicts the single-entity branch). -/
def jsonDumps : JVal → String
  | .jnull => "null"
  | .jbool true => "true"
  | .jbool false => "false"
  | .jint n => ⟨intRender n⟩
  | .jstr s => "\"" ++ s ++ "\""
  | .jarr xs => "[" ++ jsonDumpsList xs ++ "]"
  | .jobj fs => "\x7b" ++ jsonDumpsFields fs ++ "\x7d"

/-- Comma-separated dump of list elements. -/
def jsonDumpsList : List JVal → String
  | [] => ""
  | [x] => jsonDumps x
  | x :: y :: xs => jsonDumps x ++ ", " ++ jsonDumpsList (y :: xs)

/-- Comma-separated dump of object fields. -/
def jsonDumpsFields : List (String × JVal) → String
  | [] => ""
  | [p] => "\"" ++ p.1 ++ "\": " ++ jsonDumps p.2
  | p :: q :: ps => "\"" ++ p.1 ++ "\": " ++ jsonDumps p.2 ++ ", " ++ jsonDumpsFields (q :: ps)

end

/-- Python `a or b` on JSON values. -/
def pyOrJ (a b : JVal) : JVal := if jTruthy a then a else b

/-- The calls `run_tool(*args)` can issue, by subcommand of
`tools/rental_api.py`. -/
inductive ToolCall where
  | houseInit
  | rentTool (houseId : String) (platform : String)
  | terminateTool (houseId : String) (platform : String)
  | house (houseId : String)
  | byCommunity (name : PyVal) (pageSize : Nat)
  | landmarkByName (name : String)
  | searchLandmarks (name : String)
  | nearby (lid : JVal) (maxDistance pageSize : Nat)
  | byPlatform (pageSize : Nat) (args : List (String × PyVal))

/-- The id-extraction chain of lines 317-320, before the raw-name fallback:
unwrap a single object, a `data` object, or a `data` list and read `id`.
Returns the Python value of `lid` (possibly `None`/falsy), or the
`AttributeError` that `data[0].get("id")` raises on a non-dict first
element (line 320). -/
def lidCandidate (lm_res : JObj) : Except PyErr JVal :=
  let dataF := jGet lm_res "data"
  let base : JObj :=
    match dataF with
    | some (.jobj fs) => if fs.isEmpty then lm_res else fs
    | _ => lm_res
  let second : JVal :=
    match dataF with
    | some (.jobj fs) => (jGet fs "id").getD .jnull
    | _ => .jnull
  let lid1 : JVal :=
    if jTruthy ((jGet base "id").getD .jnull) then (jGet base "id").getD .jnull else second
  if jTruthy lid1 then .ok lid1
  else
    match dataF with
    | some (.jarr (x :: _)) =>
      match x with
      | .jobj fs => .ok ((jGet fs "id").getD .jnull)
      | _ => .error .attributeError
    | _ => .ok lid1

/-- Argument helper for fields passed through `str()` after an
`is not None` test (lines 331-334, 343-344, 351-354). -/
def argNumStr (m : CondMap) (k flag : String) : List (String × PyVal) :=
  match cmGet m k with
  | some v => if v = .vnull then [] else [(flag, .vstr (pyStrOf v))]
  | none => []

/-- Argument helper for fields passed raw after a truthiness test. -/
def argTruthyRaw (m : CondMap) (k flag : String) : List (String × PyVal) :=
  match cmGetTruthy m k with
  | some v => [(flag, v)]
  | none => []

/-- Argument helper for fields passed through `str()` after a truthiness
test (line 339-340). -/
def argTruthyStr (m : CondMap) (k flag : String) : List (String × PyVal) :=
  match cmGetTruthy m k with
  | some v => [(flag, .vstr (pyStrOf v))]
  | none => []

/-- The `by-platform` argument assembly (lines 326-354), in source order. -/
def platformArgs (conds : CondMap) : List (String × PyVal) :=
  argTruthyRaw conds "district" "--district"
  ++ (if (cmGetTruthy conds "area").isSome ∧ (cmGetTruthy conds "landmark_nearby").isNone
      then argTruthyRaw conds "area" "--area" else [])
  ++ argNumStr conds "min_price" "--min_price"
  ++ argNumStr conds "max_price" "--max_price"
  ++ argTruthyRaw conds "bedrooms" "--bedrooms"
  ++ argTruthyRaw conds "rental_type" "--rental_type"
  ++ argTruthyStr conds "max_subway_dist" "--max_subway_dist"
  ++ argTruthyRaw conds "subway_station" "--subway_station"
  ++ argNumStr conds "commute_to_xierqi_max" "--commute_to_xierqi_max"
  ++ argTruthyRaw conds "decoration" "--decoration"
  ++ argTruthyRaw conds "orientation" "--orientation"
  ++ argTruthyRaw conds "elevator" "--elevator"
  ++ argNumStr conds "min_area" "--min_area"
  ++ argNumStr conds "max_area" "--max_area"

/-- The tail of the landmark branch after a successful lookup (lines
317-323): extract the id candidate, fall back to the (possibly suffixed)
lookup-name string when it is falsy, and issue the proximity query.
Propagates the `AttributeError` of the extraction chain; a truthy non-string
id reaches `run_tool("nearby", lid, ...)`, where assembling the subprocess
argument list from a non-`str` raises `TypeError` (uncaught). -/
def nearbyFromLookup (oracle : ToolCall → JObj) (lm_res : JObj) (name : Str)
    (pre : List ToolCall) : Except PyErr (JObj × List ToolCall) :=
  match lidCandidate lm_res with
  | .error e => .error e
  | .ok cand =>
    match (if jTruthy cand then cand else .jstr ⟨name⟩) with
    | .jstr s =>
      .ok (oracle (.nearby (.jstr s) 2000 20), pre ++ [.nearby (.jstr s) 2000 20])
    | _ => .error .typeError

/-- `build_and_run_query(conditions)` (lines 301-356), instrumented with the
ordered trace of collaborator calls it issues; `oracle` stands for
`run_tool`.  `.error` marks a turn the source does not complete: `"站" in
landmark` raises `TypeError` on a non-string value (line 311), and every
condition value handed raw to `run_tool` must be a `str`, since a non-`str`
subprocess argument raises `TypeError` that nothing catches (`run_tool`
catches only `TimeoutExpired`/`FileNotFoundError`). -/
def build_and_run_query (oracle : ToolCall → JObj) (conds : CondMap) :
    Except PyErr (JObj × List ToolCall) :=
  match cmGetTruthy conds "community" with
  | some cv =>
    match cv with
    | .vstr _ => .ok (oracle (.byCommunity cv 20), [.byCommunity cv 20])
    | _ => .error .typeError
  | none =>
    match cmGetTruthy conds "landmark_nearby" with
    | some lv =>
      match lv with
      | .vstr lmS =>
        let lm := lmS.data
        let name : Str := if containsSub "站".data lm then lm else lm ++ "站".data
        let r1 := oracle (.landmarkByName ⟨name⟩)
        if errTruthy r1 then
          let r2 := oracle (.landmarkByName ⟨lm⟩)
          if errTruthy r2 then
            .ok (oracle (.searchLandmarks ⟨lm⟩),
                 [.landmarkByName ⟨name⟩, .landmarkByName ⟨lm⟩, .searchLandmarks ⟨lm⟩])
          else
            nearbyFromLookup oracle r2 name [.landmarkByName ⟨name⟩, .landmarkByName ⟨lm⟩]
        else
          nearbyFromLookup oracle r1 name [.landmarkByName ⟨name⟩]
      | _ => .error .typeError
    | none =>
      if (platformArgs conds).all (fun a => match a.2 with | .vstr _ => true | _ => false) then
        .ok (oracle (.byPlatform 20 (platformArgs conds)), [.byPlatform 20 (platformArgs conds)])
      else .error .typeError

/-- `items[:10]` over a truthy `items` value: lists are sliced; slicing a
truthy string yields its characters as one-character strings (other truthy
shapes would raise `TypeError`, unreachable in the claims). -/
def slice10 : JVal → List JVal
  | .jarr xs => xs.take 10
  | .jstr s => (s.data.take 10).map (fun c => .jstr ⟨[c]⟩)
  | _ => []

/-- One numbered listing line (lines 380-388). -/
def itemLine (i : Nat) (h : JVal) : String :=
  match h with
  | .jobj fs =>
    let addr := pyOrJ (jGetD fs "address") (pyOrJ (jGetD fs "community") (pyOrJ (jGetD fs "title") (.jstr "")))
    let price := pyOrJ (jGetD fs "rent") (pyOrJ (jGetD fs "price") (pyOrJ (jGetD fs "monthly_rent") (.jstr "")))
    let layout := pyOrJ (jGetD fs "layout") (pyOrJ (jGetD fs "rooms") (pyOrJ (jGetD fs "bedrooms") (.jstr "")))
    let hid := pyOrJ (jGetD fs "house_id") (pyOrJ (jGetD fs "id") (.jstr ""))
    (⟨natRender i⟩ : String) ++ ". " ++ pyStrJ addr ++ " | " ++ pyStrJ layout ++ " | " ++
      pyStrJ price ++ "元/月 | 房源ID: " ++ pyStrJ hid
  | _ => (⟨natRender i⟩ : String) ++ ". " ++ pyStrJ h

/-- `enumerate(items[:10], 1)` rendering. -/
def numberedLines (i : Nat) : List JVal → List String
  | [] => []
  | h :: hs => itemLine i h :: numberedLines (i + 1) hs

/-- `total > 10` for a JSON `total` (integers in practice; non-numeric
shapes would raise `TypeError` in Python, unreachable in the claims). -/
def jGtTen : JVal → Bool
  | .jint n => decide (n > 10)
  | .jbool _ => false
  | _ => false

/-- `format_reply(result, conditions)` (lines 359-398). -/
def format_reply (result : JObj) (_conds : CondMap) : String :=
  if errTruthy result then "查询出错：" ++ pyStrJ (jGetD result "error")
  else
    let data : JVal :=
      match jGet result "data" with
      | none => .jobj result
      | some .jnull => .jobj result
      | some d => d
    let itemsV : JVal :=
      match data with
      | .jarr xs => .jarr xs
      | .jobj fs => pyOrJ (jGetD fs "items") (jGetD fs "list")
      | _ => .jnull
    let total : JVal :=
      match data with
      | .jarr xs => .jint xs.length
      | .jobj fs =>
        match jGet fs "total" with
        | some v => v
        | none => .jint (if jTruthy itemsV then (pyLenJ itemsV : Int) else 0)
      | _ => .jint 0
    if jTruthy itemsV then
      let lines := ("根据您的条件共找到 " ++ pyStrJ total ++ " 套房源：")
        :: numberedLines 1 (slice10 itemsV)
      let lines' :=
        if jGtTen total then
          lines ++ ["… 仅展示前 10 条，共 " ++ pyStrJ total ++ " 条。可补充条件或指定小区/地标缩小范围。"]
        else lines
      String.intercalate "\n" lines'
    else
      match data with
      | .jobj fs =>
        "房源：" ++ pyStrJ (pyOrJ (jGetD fs "address") (pyOrJ (jGetD fs "community") (.jstr ""))) ++
        "，月租 " ++ pyStrJ (pyOrJ (jGetD fs "rent") (pyOrJ (jGetD fs "price") (.jstr ""))) ++ " 元。"
      | _ => jsonDumps data

/-! ### Special single-turn intents and the agent entry points -/

/-- The capture `([A-Z]+_\d+)` at a position; greedy `[A-Z]+`/`\d+` are
exact here (shrinking leaves a class character where `_`/a digit is
required). -/
def idCore (l : Str) : Option Str :=
  let letters := l.takeWhile (fun c => c.isUpper)
  if letters = [] then none
  else
    match l.drop letters.length with
    | '_' :: r2 =>
      let ds := r2.takeWhile Char.isDigit
      if ds = [] then none else some (letters ++ '_' :: ds)
    | _ => none

/-- The continuation `\s*([A-Z]+_\d+)`. -/
def idAfterWs (l : Str) : Option Str := idCore (l.dropWhile isWs)

/-- `(?:租|租赁)\s*([A-Z]+_\d+)` (line 415) at one position: the 租
alternative is tried first, then 租赁. -/
def rentMatchAt : Str → Option Str
  | '租' :: rest =>
    (match idAfterWs rest with
     | some s => some s
     | none =>
       match rest with
       | '赁' :: r2 => idAfterWs r2
       | _ => none)
  | _ => none

/-- `re.search` of the rent pattern. -/
def rentSearch : Str → Option Str
  | [] => none
  | c :: rest =>
    match rentMatchAt (c :: rest) with
    | some s => some s
    | none => rentSearch rest

/-- `退租\s*([A-Z]+_\d+)` (line 428) at one position. -/
def terminateMatchAt (l : Str) : Option Str :=
  if "退租".data.isPrefixOf l then idAfterWs (l.drop 2) else none

/-- `re.search` of the terminate pattern. -/
def terminateSearch : Str → Option Str
  | [] => none
  | c :: rest =>
    match terminateMatchAt (c :: rest) with
    | some s => some s
    | none => terminateSearch rest

/-- `(?:房源|房子)\s*([A-Z]+_\d+)|([A-Z]+_\d+)` (line 442) at one position
(the two keyword alternatives are disjoint after the first character). -/
def detailMatchAt (l : Str) : Option Str :=
  let a1 : Option Str :=
    match l with
    | '房' :: c :: rest => if c = '源' ∨ c = '子' then idAfterWs rest else none
    | _ => none
  match a1 with
  | some s => some s
  | none => idCore l

/-- `re.search` of the detail pattern. -/
def detailSearch : Str → Option Str
  | [] => none
  | c :: rest =>
    match detailMatchAt (c :: rest) with
    | some s => some s
    | none => detailSearch rest

/-- `_is_special_intent(text)` (lines 461-472). -/
def _is_special_intent (text : String) : String :=
  let t := stripS text
  let tl := t.data
  if containsSub "重置".data tl || containsSub "初始化".data tl ||
      containsSub "init".data (asciiLower t).data then "reset"
  else if (rentSearch tl).isSome ∧ ¬ containsSub "退".data tl then "rent"
  else if (terminateSearch tl).isSome then "terminate"
  else if (detailSearch tl).isSome ∧
      (containsSub "详情".data tl ∨ containsSub "介绍".data tl ∨
       containsSub "看看".data tl ∨ t.length < 30) then "detail"
  else ""

/-- `agent_reply(user_text)` (lines 401-458) under the repository's static
configuration (`LLM_API_KEY = ""`, `LLM_BASE_URL = ""`): `_llm_client()` is
`None`, so condition extraction is the rule path.  `.error` propagates an
uncaught exception of `build_and_run_query` (the special-intent branches pass
only `str` arguments to `run_tool` and cannot raise there). -/
def agent_reply (oracle : ToolCall → JObj) (user_text : String) : Except PyErr String :=
  let text := stripS user_text
  let tl := text.data
  if text = "" then
    .ok "请描述您的租房需求，例如：区域、预算、户型、整租/合租、是否近地铁、到西二旗通勤时间等。"
  else if containsSub "重置".data tl || containsSub "初始化".data tl ||
      containsSub "init".data (asciiLower text).data then
    let r := oracle .houseInit
    .ok (if errTruthy r then "重置失败：" ++ pyStrJ (jGetD r "error") else "房源数据已重置。")
  else if (rentSearch tl).isSome ∧ (containsSub "租".data tl ∧ ¬ containsSub "退".data tl) then
    let house_id : String := ⟨(rentSearch tl).getD []⟩
    let platform : String :=
      if containsSub "链家".data tl then "链家"
      else if containsSub "58".data tl ∨ containsSub "58同城".data tl then "58同城"
      else "安居客"
    let r := oracle (.rentTool house_id platform)
    .ok (if errTruthy r then "租房操作失败：" ++ pyStrJ (jGetD r "error")
         else "已为您办理租房，房源 " ++ house_id ++ "（" ++ platform ++ "）。")
  else if (terminateSearch tl).isSome then
    let house_id : String := ⟨(terminateSearch tl).getD []⟩
    let platform : String :=
      if containsSub "链家".data tl then "链家"
      else if containsSub "58".data tl then "58同城"
      else "安居客"
    let r := oracle (.terminateTool house_id platform)
    .ok (if errTruthy r then "退租失败：" ++ pyStrJ (jGetD r "error")
         else "已退租房源 " ++ house_id ++ "（" ++ platform ++ "）。")
  else if (detailSearch tl).isSome ∧
      (containsSub "详情".data tl ∨ containsSub "介绍".data tl ∨
       containsSub "看看".data tl ∨ text.length < 30) then
    let house_id : String := ⟨stripL ((detailSearch tl).getD [])⟩
    let r := oracle (.house house_id)
    .ok (if errTruthy r then "查询失败：" ++ pyStrJ (jGetD r "error")
         else format_reply r [])
  else
    let conditions := extract_conditions text
    if conditions = [] then
      .ok "未识别到具体条件，请说明区域、预算、户型（如：海淀 5000以内 一居 整租 近地铁）。"
    else
      match build_and_run_query oracle conditions with
      | .error e => .error e
      | .ok res => .ok (format_reply res.1 conditions)

/-! ### Session store and the multi-turn entry point -/

/-- Roles of history entries. -/
inductive Role where
  | user
  | assistant
deriving DecidableEq

/-- Per-session state (`SESSIONS[session_id]`, line 18). -/
structure Session where
  history : List (Role × String)
  conditions : CondMap
deriving DecidableEq

/-- The process-wide session table, threaded as explicit state. -/
abbrev Sessions := List (String × Session)

/-- `SESSIONS.get(session_id, {"history": [], "conditions": {}})`. -/
def getSession : Sessions → String → Session
  | [], _ => ⟨[], []⟩
  | (k, s) :: rest, sid => if k = sid then s else getSession rest sid

/-- `SESSIONS[session_id] = s`. -/
def setSession : Sessions → String → Session → Sessions
  | [], sid, s => [(sid, s)]
  | (k, s0) :: rest, sid, s =>
    if k = sid then (sid, s) :: rest else (k, s0) :: setSession rest sid s

/-- `MAX_HISTORY_TURNS` (line 20). -/
def MAX_HISTORY_TURNS : Nat := 10

/-- `_append_session_history(session_id, user_msg, assistant_msg)` (lines
531-539): append the turn pair, then keep the last
`MAX_HISTORY_TURNS * 2` entries. -/
def _append_session_history (ss : Sessions) (sid user_msg assistant_msg : String) : Sessions :=
  let s := getSession ss sid
  setSession ss sid
    { s with
      history := lastN (MAX_HISTORY_TURNS * 2)
        (s.history ++ [(Role.user, user_msg), (Role.assistant, assistant_msg)]) }

/-- `agent_reply_with_session(session_id, message, model_ip="")` (lines
475-528) under the repository's static configuration (no LLM configured, no
`model_ip` in the request): `_has_llm` is false, so extraction is
`extract_conditions`.  `freshId` stands for the `uuid.uuid4().hex` generated
when the incoming session id is blank.  `.ok` carries
(reply, session_id, updated session table); `.error` is a turn aborted by an
uncaught exception of the query router — the source mutates no session state
before that point, so the table is unchanged on such a turn. -/
def agent_reply_with_session (oracle : ToolCall → JObj) (ss : Sessions)
    (freshId session_id message : String) : Except PyErr (String × String × Sessions) :=
  let sid := if stripS session_id = "" then freshId else session_id
  let intent := _is_special_intent message
  if intent = "reset" then
    let ss1 := setSession ss sid ⟨[], []⟩
    let r := oracle .houseInit
    let reply :=
      if errTruthy r then "重置失败：" ++ pyStrJ (jGetD r "error") else "房源数据已重置。"
    .ok (reply, sid, _append_session_history ss1 sid message reply)
  else if intent = "rent" ∨ intent = "terminate" ∨ intent = "detail" then
    match agent_reply oracle message with
    | .error e => .error e
    | .ok reply => .ok (reply, sid, _append_session_history ss sid message reply)
  else
    let prev := (getSession ss sid).conditions
    let conds := _merge_conditions prev (extract_conditions message)
    if conds = [] then
      let reply := "未识别到具体条件，您可以分多轮说，例如先讲「海淀」，再说「5000以内」「一居」「整租」「近地铁」。"
      .ok (reply, sid, _append_session_history ss sid message reply)
    else
      match build_and_run_query oracle conds with
      | .error e => .error e
      | .ok res =>
        let reply := format_reply res.1 conds
        let s := getSession ss sid
        let ss1 := setSession ss sid { s with conditions := conds }
        .ok (reply, sid, _append_session_history ss1 sid message reply)

/-- Canonical shape of an entry produced by `_normalize_llm_conditions`:
re-normalizing such an entry stores it unchanged. -/
def canonVal (k : String) (v : PyVal) : Prop :=
  k ∈ FIELD_NAMES ∧ normSkip k v = false ∧
  (INT_FIELDS.contains k = true → ∃ n, v = .vint n ∧ intOfFloatOf (.vint n) = .ok (some n)) ∧
  (INT_FIELDS.contains k = false → k = "bedrooms" → bedroomsCoerce v = v) ∧
  (INT_FIELDS.contains k = false → k ≠ "bedrooms" → otherCoerce v = v)

/-- The history entries contributed by a list of (user, assistant) turn
pairs, in arrival order. -/
def turnEntries : List (String × String) → List (Role × String)
  | [] => []
  | t :: ts => (Role.user, t.1) :: (Role.assistant, t.2) :: turnEntries ts

/-! ## Lemmas: dictionaries -/

theorem cmGet_dictSet_same (m : CondMap) (k : String) (v : PyVal) :
    cmGet (dictSet m k v) k = some v := by
  induction m with
  | nil => simp [dictSet, cmGet]
  | cons p rest ih =>
    obtain ⟨k0, v0⟩ := p
    by_cases h : k0 = k <;> simp [dictSet, cmGet, h, ih]

theorem cmGet_dictSet_ne (m : CondMap) {k k' : String} (v : PyVal) (h : k' ≠ k) :
    cmGet (dictSet m k v) k' = cmGet m k' := by
  induction m with
  | nil => simp [dictSet, cmGet, Ne.symm h]
  | cons p rest ih =>
    obtain ⟨k0, v0⟩ := p
    by_cases h0 : k0 = k
    · simp [dictSet, cmGet, h0, Ne.symm h]
    · by_cases h1 : k0 = k' <;> simp [dictSet, cmGet, h0, h1, h, ih]

theorem cmGet_dictSet_isSome (m : CondMap) (k k' : String) (v : PyVal)
    (h : (cmGet m k').isSome = true) : (cmGet (dictSet m k v) k').isSome = true := by
  by_cases hk : k' = k
  · subst hk; simp [cmGet_dictSet_same]
  · rwa [cmGet_dictSet_ne m v hk]

theorem mem_keys_dictSet (m : CondMap) (k k' : String) (v : PyVal)
    (h : k' ∈ (dictSet m k v).map Prod.fst) : k' = k ∨ k' ∈ m.map Prod.fst := by
  induction m with
  | nil => simpa [dictSet] using h
  | cons p rest ih =>
    obtain ⟨k0, v0⟩ := p
    by_cases h0 : k0 = k
    · subst h0
      rcases (by simpa [dictSet] using h : k' = k0 ∨ k' ∈ rest.map Prod.fst) with h1 | h1
      · exact Or.inl h1
      · exact Or.inr (by simp [h1])
    · rcases (by simpa [dictSet, h0] using h : k' = k0 ∨ k' ∈ (dictSet rest k v).map Prod.fst) with h1 | h1
      · exact Or.inr (by simp [h1])
      · rcases ih h1 with h2 | h2
        · exact Or.inl h2
        · exact Or.inr (by simp [h2])

theorem mem_dictSet (m : CondMap) (k : String) (v : PyVal) (p : String × PyVal)
    (h : p ∈ dictSet m k v) : p ∈ m ∨ p = (k, v) := by
  induction m with
  | nil => simpa [dictSet] using h
  | cons q rest ih =>
    obtain ⟨k0, v0⟩ := q
    by_cases h0 : k0 = k
    · subst h0
      rcases (by simpa [dictSet] using h : p = (k0, v) ∨ p ∈ rest) with h1 | h1
      · exact Or.inr h1
      · exact Or.inl (by simp [h1])
    · rcases (by simpa [dictSet, h0] using h : p = (k0, v0) ∨ p ∈ dictSet rest k v) with h1 | h1
      · exact Or.inl (by simp [h1])
      · rcases ih h1 with h2 | h2
        · exact Or.inl (by simp [h2])
        · exact Or.inr h2

theorem dictSet_fresh (m : CondMap) (k : String) (v : PyVal)
    (h : k ∉ m.map Prod.fst) : dictSet m k v = m ++ [(k, v)] := by
  induction m with
  | nil => simp [dictSet]
  | cons p rest ih =>
    obtain ⟨k0, v0⟩ := p
    have h0 : k0 ≠ k := by
      intro h0; exact h (by simp [h0])
    have h1 : k ∉ rest.map Prod.fst := by
      intro h1; exact h (by simp [h1])
    simp [dictSet, h0, ih h1]

theorem nodup_keys_dictSet (m : CondMap) (k : String) (v : PyVal)
    (h : (m.map Prod.fst).Nodup) : ((dictSet m k v).map Prod.fst).Nodup := by
  induction m with
  | nil => simp [dictSet]
  | cons p rest ih =>
    obtain ⟨k0, v0⟩ := p
    simp only [List.map_cons, List.nodup_cons] at h
    by_cases h0 : k0 = k
    · subst h0
      simpa [dictSet] using h
    · have h2 : k0 ∉ (dictSet rest k v).map Prod.fst := by
        intro hmem
        rcases mem_keys_dictSet rest k k0 v hmem with h3 | h3
        · exact h0 h3
        · exact h.1 h3
      rw [show dictSet ((k0, v0) :: rest) k v = (k0, v0) :: dictSet rest k v from by
        simp [dictSet, h0]]
      simp only [List.map_cons, List.nodup_cons]
      exact ⟨h2, ih h.2⟩

/-! ## Lemmas: stripping -/

theorem dropWhile_dropWhile (p : α → Bool) (l : List α) :
    (l.dropWhile p).dropWhile p = l.dropWhile p := by
  induction l with
  | nil => rfl
  | cons c rest ih =>
    by_cases h : p c
    · simp [List.dropWhile_cons, h, ih]
    · simp [List.dropWhile_cons, h]

theorem dropWhile_length_le (p : α → Bool) (l : List α) :
    (l.dropWhile p).length ≤ l.length := by
  induction l with
  | nil => simp
  | cons c rest ih =>
    by_cases h : p c
    · simp only [List.dropWhile_cons, h, if_true]
      exact Nat.le_trans ih (by simp)
    · simp [List.dropWhile_cons, h]

theorem dropWhile_of_append_self {p : α → Bool} {a t : List α}
    (h : (a ++ t).dropWhile p = a ++ t) : a.dropWhile p = a := by
  cases a with
  | nil => rfl
  | cons c a' =>
    by_cases hc : p c
    · exfalso
      have h1 : ((c :: a') ++ t).dropWhile p = (a' ++ t).dropWhile p := by
        simp [List.dropWhile_cons, hc]
      have h2 := dropWhile_length_le p (a' ++ t)
      rw [h1] at h
      have h3 := congrArg List.length h
      simp [List.length_append] at h3 h2
      omega
    · simp [List.dropWhile_cons, hc]

theorem revDropWs_of_dropWhile_self {x : Str} (h : x.dropWhile isWs = x) :
    ((x.reverse.dropWhile isWs).reverse).dropWhile isWs = (x.reverse.dropWhile isWs).reverse := by
  have hx : x = (x.reverse.dropWhile isWs).reverse ++ (x.reverse.takeWhile isWs).reverse := by
    conv_lhs => rw [← List.reverse_reverse x, ← List.takeWhile_append_dropWhile (p := isWs) (l := x.reverse)]
    rw [List.reverse_append]
  have := dropWhile_of_append_self (a := (x.reverse.dropWhile isWs).reverse)
    (t := (x.reverse.takeWhile isWs).reverse) (p := isWs) (by rw [← hx]; exact h)
  exact this

theorem stripL_idem (l : Str) : stripL (stripL l) = stripL l := by
  unfold stripL
  have h1 : (l.dropWhile isWs).dropWhile isWs = l.dropWhile isWs := dropWhile_dropWhile isWs l
  rw [revDropWs_of_dropWhile_self h1]
  rw [List.reverse_reverse, dropWhile_dropWhile]

theorem stripS_idem (s : String) : stripS (stripS s) = stripS s := by
  unfold stripS
  exact congrArg String.mk (stripL_idem s.data)

theorem dropWhile_eq_self_of_not {p : α → Bool} {l : List α}
    (h : ∀ c ∈ l, p c = false) : l.dropWhile p = l := by
  cases l with
  | nil => rfl
  | cons c rest => simp [List.dropWhile_cons, h c (by simp)]

theorem stripL_eq_self_of_no_ws {l : Str} (h : ∀ c ∈ l, isWs c = false) :
    stripL l = l := by
  unfold stripL
  rw [dropWhile_eq_self_of_not h]
  rw [dropWhile_eq_self_of_not (by intro c hc; exact h c (by simpa using hc))]
  exact List.reverse_reverse l

/-! ## Lemmas: decimal rendering -/

theorem digitChar_not_ws : ∀ n : Nat, n < 10 → isWs (Char.ofNat (48 + n)) = false := by
  decide

theorem natRenderAux_not_ws (fuel : Nat) :
    ∀ (n : Nat), ∀ c ∈ natRenderAux fuel n, isWs c = false := by
  induction fuel with
  | zero => intro n c hc; simp [natRenderAux] at hc
  | succ fuel ih =>
    intro n c hc
    by_cases h : n < 10
    · simp [natRenderAux, h] at hc
      subst hc
      exact digitChar_not_ws n h
    · simp [natRenderAux, h] at hc
      rcases hc with hc | hc
      · exact ih _ c hc
      · subst hc
        exact digitChar_not_ws _ (Nat.mod_lt n (by omega))

theorem natRender_ne_nil (n : Nat) : natRender n ≠ [] := by
  unfold natRender natRenderAux
  by_cases h : n < 10 <;> simp [h]

theorem intRender_not_ws (i : Int) : ∀ c ∈ intRender i, isWs c = false := by
  cases i with
  | ofNat n => exact natRenderAux_not_ws _ n
  | negSucc n =>
    intro c hc
    simp [intRender] at hc
    rcases hc with hc | hc
    · subst hc; rfl
    · exact natRenderAux_not_ws _ _ c hc

theorem intRender_ne_nil (i : Int) : intRender i ≠ [] := by
  cases i with
  | ofNat n => exact natRender_ne_nil n
  | negSucc n => simp [intRender]

theorem stripS_intRender (i : Int) : stripS ⟨intRender i⟩ = ⟨intRender i⟩ := by
  unfold stripS
  exact congrArg String.mk (stripL_eq_self_of_no_ws (intRender_not_ws i))

theorem mk_intRender_ne_empty (i : Int) : (⟨intRender i⟩ : String) ≠ "" := by
  intro h
  exact intRender_ne_nil i (congrArg String.data h)

/-! ## Lemmas: de-duplication and comma split/join -/

theorem dedupAux_append_dedupAux (seen : List Str) (xs ys : List Str) :
    dedupAux seen (dedupAux seen xs ++ ys) = dedupAux seen (xs ++ ys) := by
  induction xs generalizing seen with
  | nil => rfl
  | cons x xs ih =>
    by_cases h : x ∈ seen
    · rw [show dedupAux seen (x :: xs) = dedupAux seen xs from by simp [dedupAux, h]]
      rw [ih seen]
      simp [dedupAux, h]
    · rw [show dedupAux seen (x :: xs) = x :: dedupAux (x :: seen) xs from by
        simp [dedupAux, h]]
      rw [show (x :: dedupAux (x :: seen) xs) ++ ys = x :: (dedupAux (x :: seen) xs ++ ys) from rfl]
      rw [show dedupAux seen (x :: (dedupAux (x :: seen) xs ++ ys))
          = x :: dedupAux (x :: seen) (dedupAux (x :: seen) xs ++ ys) from by
        simp [dedupAux, h]]
      rw [ih (x :: seen)]
      simp [dedupAux, h]

theorem dedupFirst_append_dedupFirst (xs ys : List Str) :
    dedupFirst (dedupFirst xs ++ ys) = dedupFirst (xs ++ ys) :=
  dedupAux_append_dedupAux [] xs ys

theorem dedupFirst_idem (l : List Str) : dedupFirst (dedupFirst l) = dedupFirst l := by
  have := dedupAux_append_dedupAux [] l []
  simpa [dedupFirst] using this

theorem mem_dedupAux {x : Str} : ∀ {seen l : List Str}, x ∈ dedupAux seen l → x ∈ l := by
  intro seen l
  induction l generalizing seen with
  | nil => simp [dedupAux]
  | cons y ys ih =>
    by_cases h : y ∈ seen
    · intro hm
      rw [show dedupAux seen (y :: ys) = dedupAux seen ys from by simp [dedupAux, h]] at hm
      exact List.mem_cons_of_mem y (ih hm)
    · intro hm
      rw [show dedupAux seen (y :: ys) = y :: dedupAux (y :: seen) ys from by
        simp [dedupAux, h]] at hm
      rcases List.mem_cons.mp hm with h1 | h1
      · simp [h1]
      · exact List.mem_cons_of_mem y (ih h1)

theorem dedupFirst_ne_nil {x : Str} {xs : List Str} : dedupFirst (x :: xs) ≠ [] := by
  simp [dedupFirst, dedupAux]

theorem splitComma_no_comma {l : Str} (h : ',' ∉ l) : splitComma l = [l] := by
  induction l with
  | nil => rfl
  | cons c rest ih =>
    have hc : ¬ c = ',' := by intro hc; exact h (by simp [hc])
    have hr : ',' ∉ rest := fun hr => h (by simp [hr])
    simp [splitComma, hc, ih hr]

theorem splitComma_append_comma {p : Str} (rest : Str) (h : ',' ∉ p) :
    splitComma (p ++ ',' :: rest) = p :: splitComma rest := by
  induction p with
  | nil => simp [splitComma]
  | cons c p' ih =>
    have hc : ¬ c = ',' := fun hc => h (by simp [hc])
    have hp : ',' ∉ p' := fun hp => h (by simp [hp])
    simp [splitComma, hc, ih hp]

theorem splitComma_joinComma : ∀ (ps : List Str), ps ≠ [] → (∀ p ∈ ps, ',' ∉ p) →
    splitComma (joinComma ps) = ps := by
  intro ps
  induction ps with
  | nil => intro h; exact absurd rfl h
  | cons p ps ih =>
    intro _ hcf
    cases ps with
    | nil => simpa [joinComma] using splitComma_no_comma (hcf p (by simp))
    | cons q ps' =>
      rw [show joinComma (p :: q :: ps') = p ++ ',' :: joinComma (q :: ps') from rfl]
      rw [splitComma_append_comma _ (hcf p (by simp))]
      rw [ih (by simp) (fun x hx => hcf x (by simp [hx]))]

/-! ## Lemmas: canonical normalizer outputs -/

theorem normSkip_false (k : String) (v : PyVal) (h : normSkip k v = false) :
    k ∈ FIELD_NAMES ∧ v ≠ .vnull ∧
    (∀ s, v = .vstr s → stripS s ≠ "" ∧ s ≠ "") := by
  cases v with
  | vnull => simp [normSkip] at h
  | vstr s =>
    simp [normSkip] at h
    obtain ⟨⟨hmem, hne⟩, hstrip⟩ := h
    refine ⟨hmem, by simp, ?_⟩
    intro s' hs'
    cases hs'
    exact ⟨hstrip, hne⟩
  | vint n =>
    simp [normSkip] at h
    exact ⟨h, by simp, by simp⟩
  | vnum q =>
    simp [normSkip] at h
    exact ⟨h, by simp, by simp⟩

theorem normSkip_vint_false (k : String) (n : Int) (hk : k ∈ FIELD_NAMES) :
    normSkip k (.vint n) = false := by
  simp [normSkip, hk]

theorem normSkip_vstr_false (k : String) (s : String) (hk : k ∈ FIELD_NAMES)
    (h1 : s ≠ "") (h2 : stripS s ≠ "") : normSkip k (.vstr s) = false := by
  simp [normSkip, hk, h1, h2]

theorem FLOAT_OVERFLOW_eq : FLOAT_OVERFLOW = ((2 ^ 1024 - 2 ^ 970 : Nat) : ℚ) := by
  norm_num [FLOAT_OVERFLOW]

theorem pow10_eq (n : Nat) : pow10 n = 10 ^ n := by
  induction n using pow10.induct with
  | case1 => rfl
  | case2 => rfl
  | case3 => rfl
  | case4 => rfl
  | case5 n ih => simp [pow10, ih, pow_succ]; ring

theorem ratTrunc_abs_le (q : ℚ) : |(ratTrunc q : ℚ)| ≤ |q| := by
  unfold ratTrunc
  by_cases h : q < 0
  · rw [if_pos h]
    have hc0 : ⌈q⌉ ≤ (0 : Int) := Int.ceil_le.mpr (by exact_mod_cast le_of_lt h)
    have hc : ((⌈q⌉ : Int) : ℚ) ≤ 0 := by exact_mod_cast hc0
    rw [abs_of_nonpos hc, abs_of_nonpos (le_of_lt h), neg_le_neg_iff]
    exact Int.le_ceil q
  · push_neg at h
    rw [if_neg (not_lt.mpr h)]
    have hf : (0 : ℚ) ≤ ((⌊q⌋ : Int) : ℚ) := by exact_mod_cast Int.floor_nonneg.mpr h
    rw [abs_of_nonneg hf, abs_of_nonneg h]
    exact Int.floor_le q

theorem floatOfRat_finite {q q' : ℚ} (h : floatOfRat q = .finite q') :
    q' = q ∧ |q| < FLOAT_OVERFLOW := by
  unfold floatOfRat at h
  split at h
  · cases h
  · split at h
    · cases h
    · rename_i h1 h2
      injection h with h'
      subst h'
      exact ⟨rfl, abs_lt.mpr ⟨not_le.mp h2, not_le.mp h1⟩⟩

theorem parseDecimal_finite {neg : Bool} {l1 : Str} {q : ℚ}
    (h : parseDecimal neg l1 = some (.finite q)) : |q| < FLOAT_OVERFLOW := by
  unfold parseDecimal at h
  dsimp only at h
  repeat' split at h
  all_goals first
    | cases h
    | (injection h with h'
       rw [(floatOfRat_finite h').1]
       exact (floatOfRat_finite h').2)

theorem pyParseFloat_finite {s : Str} {q : ℚ}
    (h : pyParseFloat s = some (.finite q)) : |q| < FLOAT_OVERFLOW := by
  unfold pyParseFloat at h
  dsimp only at h
  repeat' split at h
  all_goals first
    | (injection h with h'; cases h')
    | exact parseDecimal_finite h

theorem intOfFloatOf_self {v : PyVal} {n : Int}
    (h : intOfFloatOf v = .ok (some n)) : intOfFloatOf (.vint n) = .ok (some n) := by
  cases v with
  | vnull => simp [intOfFloatOf] at h
  | vint m =>
    simp only [intOfFloatOf] at h ⊢
    split at h
    · cases h
    · rename_i hlt
      injection h with h'
      injection h' with h''
      subst h''
      rw [if_neg hlt]
  | vnum q =>
    simp only [intOfFloatOf] at h ⊢
    split at h
    · cases h
    · rename_i hlt
      injection h with h'
      injection h' with h''
      subst h''
      have hb : |(ratTrunc q : ℚ)| < FLOAT_OVERFLOW :=
        lt_of_le_of_lt (ratTrunc_abs_le q) (not_le.mp hlt)
      rw [if_neg (not_le.mpr hb)]
  | vstr s =>
    simp only [intOfFloatOf] at h ⊢
    cases hp : pyParseFloat s.data with
    | none => rw [hp] at h; cases h
    | some f =>
      rw [hp] at h
      cases f with
      | finite q =>
        injection h with h'
        injection h' with h''
        subst h''
        have hb : |(ratTrunc q : ℚ)| < FLOAT_OVERFLOW :=
          lt_of_le_of_lt (ratTrunc_abs_le q) (pyParseFloat_finite hp)
        rw [if_neg (not_le.mpr hb)]
      | inf => cases h
      | ninf => cases h
      | nan => cases h

theorem canonVal_int (k : String) (n : Int) (hk : k ∈ FIELD_NAMES)
    (hki : INT_FIELDS.contains k = true)
    (hio : intOfFloatOf (.vint n) = .ok (some n)) : canonVal k (.vint n) := by
  refine ⟨hk, normSkip_vint_false k n hk, fun _ => ⟨n, rfl, hio⟩, ?_, ?_⟩
  · intro h; rw [h] at hki; cases hki
  · intro h; rw [h] at hki; cases hki

theorem bedroomsCoerce_shape (v : PyVal) (hskip : normSkip "bedrooms" v = false) :
    ∃ s : String, bedroomsCoerce v = .vstr s ∧ stripS s = s ∧ s ≠ "" := by
  cases v with
  | vnull => simp [normSkip] at hskip
  | vstr s =>
    have h := (normSkip_false _ _ hskip).2.2 s rfl
    exact ⟨stripS s, rfl, stripS_idem s, h.1⟩
  | vint n => exact ⟨⟨intRender n⟩, rfl, stripS_intRender n, mk_intRender_ne_empty n⟩
  | vnum q =>
    exact ⟨⟨intRender (ratTrunc q)⟩, rfl, stripS_intRender _, mk_intRender_ne_empty _⟩

theorem canonVal_bedrooms (v : PyVal) (hskip : normSkip "bedrooms" v = false) :
    canonVal "bedrooms" (bedroomsCoerce v) := by
  obtain ⟨s, hs, hstrip, hne⟩ := bedroomsCoerce_shape v hskip
  rw [hs]
  refine ⟨by decide, ?_, ?_, ?_, ?_⟩
  · exact normSkip_vstr_false _ s (by decide) hne (by rw [hstrip]; exact hne)
  · intro h; cases h
  · intro _ _
    show bedroomsCoerce (.vstr s) = .vstr s
    simp [bedroomsCoerce, hstrip]
  · intro _ h; exact absurd rfl h

theorem canonVal_other (k : String) (v : PyVal) (hskip : normSkip k v = false)
    (hk : k ∈ FIELD_NAMES)
    (hki : INT_FIELDS.contains k = false) (hkb : k ≠ "bedrooms") :
    canonVal k (otherCoerce v) := by
  cases v with
  | vnull => simp [normSkip] at hskip
  | vstr s =>
    have h := (normSkip_false _ _ hskip).2.2 s rfl
    show canonVal k (.vstr (stripS s))
    refine ⟨hk, ?_, ?_, ?_, ?_⟩
    · exact normSkip_vstr_false _ _ hk h.1 (by rw [stripS_idem]; exact h.1)
    · intro hi; rw [hi] at hki; cases hki
    · intro _ hb; exact absurd hb hkb
    · intro _ _
      show otherCoerce (.vstr (stripS s)) = .vstr (stripS s)
      simp [otherCoerce, stripS_idem]
  | vint n =>
    refine ⟨hk, hskip, ?_, ?_, ?_⟩
    · intro hi; rw [hi] at hki; cases hki
    · intro _ hb; exact absurd hb hkb
    · intro _ _; rfl
  | vnum q =>
    refine ⟨hk, hskip, ?_, ?_, ?_⟩
    · intro hi; rw [hi] at hki; cases hki
    · intro _ hb; exact absurd hb hkb
    · intro _ _; rfl

theorem normStep_canon (acc : CondMap) (k : String) (v : PyVal)
    (hacc : ∀ p ∈ acc, canonVal p.1 p.2) :
    ∀ p ∈ normStep acc k v, canonVal p.1 p.2 := by
  intro p hp
  unfold normStep at hp
  by_cases hskip : normSkip k v = true
  · rw [if_pos hskip] at hp; exact hacc p hp
  · have hskip' : normSkip k v = false := by simpa using hskip
    rw [if_neg hskip] at hp
    have hk := (normSkip_false k v hskip').1
    by_cases hki : INT_FIELDS.contains k = true
    · rw [if_pos hki] at hp
      cases hv : intOfFloatOf v with
      | error e => rw [hv] at hp; exact hacc p hp
      | ok o =>
        rw [hv] at hp
        cases o with
        | none => exact hacc p hp
        | some n =>
          rcases mem_dictSet _ _ _ _ hp with h1 | h1
          · exact hacc p h1
          · rw [h1]; exact canonVal_int k n hk hki (intOfFloatOf_self hv)
    · rw [if_neg hki] at hp
      by_cases hkb : k = "bedrooms"
      · rw [if_pos hkb] at hp
        rcases mem_dictSet _ _ _ _ hp with h1 | h1
        · exact hacc p h1
        · rw [h1]
          subst hkb
          exact canonVal_bedrooms v hskip'
      · rw [if_neg hkb] at hp
        rcases mem_dictSet _ _ _ _ hp with h1 | h1
        · exact hacc p h1
        · rw [h1]
          exact canonVal_other k v hskip' hk (by simpa using hki) hkb

theorem normFold_canon (raw : CondMap) (acc : CondMap)
    (hacc : ∀ p ∈ acc, canonVal p.1 p.2) :
    ∀ p ∈ raw.foldl (fun conds kv => normStep conds kv.1 kv.2) acc, canonVal p.1 p.2 := by
  induction raw generalizing acc with
  | nil => simpa using hacc
  | cons kv raw ih =>
    intro p hp
    rw [List.foldl_cons] at hp
    exact ih (normStep acc kv.1 kv.2) (normStep_canon acc kv.1 kv.2 hacc) p hp

theorem normStep_nodup (acc : CondMap) (k : String) (v : PyVal)
    (h : (acc.map Prod.fst).Nodup) : ((normStep acc k v).map Prod.fst).Nodup := by
  unfold normStep
  by_cases hskip : normSkip k v = true
  · rwa [if_pos hskip]
  · rw [if_neg hskip]
    by_cases hki : INT_FIELDS.contains k = true
    · rw [if_pos hki]
      cases intOfFloatOf v with
      | error e => exact h
      | ok o =>
        cases o with
        | none => exact h
        | some n => exact nodup_keys_dictSet acc k _ h
    · rw [if_neg hki]
      by_cases hkb : k = "bedrooms"
      · rw [if_pos hkb]; exact nodup_keys_dictSet acc k _ h
      · rw [if_neg hkb]; exact nodup_keys_dictSet acc k _ h

theorem normFold_nodup (raw : CondMap) (acc : CondMap)
    (hacc : (acc.map Prod.fst).Nodup) :
    (((raw.foldl (fun conds kv => normStep conds kv.1 kv.2) acc)).map Prod.fst).Nodup := by
  induction raw generalizing acc with
  | nil => simpa using hacc
  | cons kv raw ih =>
    rw [List.foldl_cons]
    exact ih _ (normStep_nodup acc kv.1 kv.2 hacc)

theorem normFold_fixed (y : CondMap) (acc : CondMap)
    (hy : ∀ p ∈ y, canonVal p.1 p.2)
    (hnd : ((acc ++ y).map Prod.fst).Nodup) :
    y.foldl (fun conds kv => normStep conds kv.1 kv.2) acc = acc ++ y := by
  induction y generalizing acc with
  | nil => simp
  | cons kv y ih =>
    obtain ⟨k, v⟩ := kv
    have hcv : canonVal k v := hy (k, v) (by simp)
    obtain ⟨hk, hskip, hint, hbed, hoth⟩ := hcv
    have hstep : normStep acc k v = dictSet acc k v := by
      unfold normStep
      rw [if_neg (by simp [hskip])]
      by_cases hki : INT_FIELDS.contains k = true
      · obtain ⟨n, hn, hio⟩ := hint hki
        subst hn
        rw [if_pos hki, hio]
      · rw [if_neg hki]
        by_cases hkb : k = "bedrooms"
        · rw [if_pos hkb, hbed (by simpa using hki) hkb]
        · rw [if_neg hkb, hoth (by simpa using hki) hkb]
    have hfresh : k ∉ acc.map Prod.fst := by
      intro hmem
      rw [List.map_append, List.nodup_append] at hnd
      exact hnd.2.2 hmem (by simp)
    rw [List.foldl_cons, hstep, dictSet_fresh acc k v hfresh]
    have hnd' : (((acc ++ [(k, v)]) ++ y).map Prod.fst).Nodup := by
      have he : (acc ++ [(k, v)]) ++ y = acc ++ ((k, v) :: y) := by simp
      rw [he]
      exact hnd
    rw [ih (acc ++ [(k, v)]) (fun p hp => hy p (by simp [hp])) hnd']
    simp

theorem normStepExc_ok {acc : CondMap} {k : String} {v : PyVal} {c : CondMap}
    (h : normStepExc acc k v = .ok c) : normStep acc k v = c := by
  unfold normStepExc at h
  unfold normStep
  by_cases hskip : normSkip k v = true
  · rw [if_pos hskip] at h ⊢
    injection h
  · rw [if_neg hskip] at h ⊢
    by_cases hki : INT_FIELDS.contains k = true
    · rw [if_pos hki] at h ⊢
      cases hio : intOfFloatOf v with
      | error e => rw [hio] at h; cases h
      | ok o =>
        rw [hio] at h
        cases o with
        | none => injection h
        | some n => injection h
    · rw [if_neg hki] at h ⊢
      by_cases hkb : k = "bedrooms"
      · rw [if_pos hkb] at h ⊢
        injection h
      · rw [if_neg hkb] at h ⊢
        injection h

theorem normFoldExc_ok {raw : CondMap} : ∀ {acc y : CondMap},
    normFoldExc acc raw = .ok y →
    raw.foldl (fun conds kv => normStep conds kv.1 kv.2) acc = y := by
  induction raw with
  | nil =>
    intro acc y h
    unfold normFoldExc at h
    injection h
  | cons kv rest ih =>
    intro acc y h
    unfold normFoldExc at h
    cases hs : normStepExc acc kv.1 kv.2 with
    | error e => rw [hs] at h; cases h
    | ok c =>
      rw [hs] at h
      rw [List.foldl_cons, normStepExc_ok hs]
      exact ih h

theorem normFoldExc_fixed (y : CondMap) (acc : CondMap)
    (hy : ∀ p ∈ y, canonVal p.1 p.2)
    (hnd : ((acc ++ y).map Prod.fst).Nodup) :
    normFoldExc acc y = .ok (acc ++ y) := by
  induction y generalizing acc with
  | nil => simp [normFoldExc]
  | cons kv y ih =>
    obtain ⟨k, v⟩ := kv
    have hcv : canonVal k v := hy (k, v) (by simp)
    obtain ⟨hk, hskip, hint, hbed, hoth⟩ := hcv
    have hstep : normStepExc acc k v = .ok (dictSet acc k v) := by
      unfold normStepExc
      rw [if_neg (by simp [hskip])]
      by_cases hki : INT_FIELDS.contains k = true
      · obtain ⟨n, hn, hio⟩ := hint hki
        subst hn
        rw [if_pos hki, hio]
      · rw [if_neg hki]
        by_cases hkb : k = "bedrooms"
        · rw [if_pos hkb, hbed (by simpa using hki) hkb]
        · rw [if_neg hkb, hoth (by simpa using hki) hkb]
    have hfresh : k ∉ acc.map Prod.fst := by
      intro hmem
      rw [List.map_append, List.nodup_append] at hnd
      exact hnd.2.2 hmem (by simp)
    have hnd' : (((acc ++ [(k, v)]) ++ y).map Prod.fst).Nodup := by
      have he : (acc ++ [(k, v)]) ++ y = acc ++ ((k, v) :: y) := by simp
      rw [he]
      exact hnd
    unfold normFoldExc
    rw [hstep]
    show normFoldExc (dictSet acc k v) y = .ok (acc ++ (k, v) :: y)
    rw [dictSet_fresh acc k v hfresh,
        ih (acc ++ [(k, v)]) (fun p hp => hy p (by simp [hp])) hnd']
    simp


/-! ## Lemmas: the merger on canonical inputs -/

theorem mergeSkip_of_canon (k : String) (v : PyVal) (h : canonVal k v) :
    mergeSkip v = false := by
  obtain ⟨_, hskip, _, _, _⟩ := h
  obtain ⟨_, hnull, hstr⟩ := normSkip_false _ _ hskip
  cases v with
  | vnull => exact absurd rfl hnull
  | vstr s => simp [mergeSkip, (hstr s rfl).1]
  | vint n => simp [mergeSkip]
  | vnum q => simp [mergeSkip]

theorem mergeFold_fixed (y : CondMap) (acc : CondMap)
    (hy : ∀ p ∈ y, canonVal p.1 p.2)
    (hnd : ((acc ++ y).map Prod.fst).Nodup) :
    y.foldl (fun merged kv => if mergeSkip kv.2 then merged else dictSet merged kv.1 kv.2) acc
      = acc ++ y := by
  induction y generalizing acc with
  | nil => simp
  | cons kv y ih =>
    obtain ⟨k, v⟩ := kv
    have hcv : canonVal k v := hy (k, v) (by simp)
    have hfresh : k ∉ acc.map Prod.fst := by
      intro hmem
      rw [List.map_append, List.nodup_append] at hnd
      exact hnd.2.2 hmem (by simp)
    rw [List.foldl_cons]
    rw [show (if mergeSkip v then acc else dictSet acc k v) = dictSet acc k v from by
      simp [mergeSkip_of_canon k v hcv]]
    rw [dictSet_fresh acc k v hfresh]
    have hnd' : (((acc ++ [(k, v)]) ++ y).map Prod.fst).Nodup := by
      have he : (acc ++ [(k, v)]) ++ y = acc ++ ((k, v) :: y) := by simp
      rw [he]
      exact hnd
    rw [ih (acc ++ [(k, v)]) (fun p hp => hy p (by simp [hp])) hnd']
    simp


/-! ## Lemmas: extractor steps touch only their own keys -/

theorem cmGet_districtStepOne (m : CondMap) (d : Str) {k : String}
    (h : k ≠ "district") : cmGet (districtStepOne m d) k = cmGet m k := by
  unfold districtStepOne
  split <;> simp [cmGet_dictSet_ne _ _ h]

theorem cmGet_stepDistrict_ne (t : Str) (m : CondMap) {k : String}
    (h : k ≠ "district") : cmGet (stepDistrict t m) k = cmGet m k := by
  unfold stepDistrict
  dsimp only
  have hfold : ∀ (ms : List Str) (m0 : CondMap),
      cmGet (ms.foldl districtStepOne m0) k = cmGet m0 k := by
    intro ms
    induction ms with
    | nil => intro m0; rfl
    | cons d ms ih =>
      intro m0
      rw [List.foldl_cons, ih (districtStepOne m0 d)]
      exact cmGet_districtStepOne m0 d h
  split
  · split
    · rw [cmGet_dictSet_ne _ _ h]
      exact hfold _ m
    · exact hfold _ m
  · exact hfold _ m

theorem cmGet_landmarkStepOne (t : Str) (m : CondMap) (name : Str) {k : String}
    (h1 : k ≠ "landmark_nearby") (h2 : k ≠ "area") :
    cmGet (landmarkStepOne t m name) k = cmGet m k := by
  unfold landmarkStepOne
  dsimp only
  split <;> split <;> simp [cmGet_dictSet_ne _ _ h1, cmGet_dictSet_ne _ _ h2]

theorem cmGet_stepLandmark (t : Str) (m : CondMap) {k : String}
    (h1 : k ≠ "landmark_nearby") (h2 : k ≠ "area") :
    cmGet (stepLandmark t m) k = cmGet m k := by
  unfold stepLandmark
  generalize finditerAlts LANDMARKS t = ms
  induction ms generalizing m with
  | nil => rfl
  | cons d ms ih =>
    rw [List.foldl_cons, ih (landmarkStepOne t m d)]
    exact cmGet_landmarkStepOne t m d h1 h2

theorem cmGet_stepPriceMax (t : Str) (m : CondMap) {k : String}
    (h : k ≠ "max_price") : cmGet (stepPriceMax t m) k = cmGet m k := by
  unfold stepPriceMax
  split <;> simp [cmGet_dictSet_ne _ _ h]

theorem cmGet_stepPriceRange (t : Str) (m : CondMap) {k : String}
    (h1 : k ≠ "min_price") (h2 : k ≠ "max_price") :
    cmGet (stepPriceRange t m) k = cmGet m k := by
  unfold stepPriceRange
  split <;> simp [cmGet_dictSet_ne _ _ h1, cmGet_dictSet_ne _ _ h2]

theorem cmGet_stepBedrooms (t : Str) (m : CondMap) {k : String}
    (h : k ≠ "bedrooms") : cmGet (stepBedrooms t m) k = cmGet m k := by
  unfold stepBedrooms
  split <;> simp [cmGet_dictSet_ne _ _ h]

theorem cmGet_stepRentalType (t : Str) (m : CondMap) {k : String}
    (h : k ≠ "rental_type") : cmGet (stepRentalType t m) k = cmGet m k := by
  unfold stepRentalType
  dsimp only
  split <;> split <;> simp [cmGet_dictSet_ne _ _ h]

theorem cmGet_stepSubway (t : Str) (m : CondMap) {k : String}
    (h : k ≠ "max_subway_dist") : cmGet (stepSubway t m) k = cmGet m k := by
  unfold stepSubway
  split <;> simp [cmGet_dictSet_ne _ _ h]

theorem cmGet_stepCommute (t : Str) (m : CondMap) {k : String}
    (h : k ≠ "commute_to_xierqi_max") : cmGet (stepCommute t m) k = cmGet m k := by
  unfold stepCommute
  split <;> simp [cmGet_dictSet_ne _ _ h]

theorem cmGet_stepDecoration (t : Str) (m : CondMap) {k : String}
    (h : k ≠ "decoration") : cmGet (stepDecoration t m) k = cmGet m k := by
  unfold stepDecoration
  dsimp only
  split <;> split <;> simp [cmGet_dictSet_ne _ _ h]

theorem cmGet_stepOrientation (t : Str) (m : CondMap) {k : String}
    (h : k ≠ "orientation") : cmGet (stepOrientation t m) k = cmGet m k := by
  unfold stepOrientation
  split <;> simp [cmGet_dictSet_ne _ _ h]

theorem cmGet_stepElevator (t : Str) (m : CondMap) {k : String}
    (h : k ≠ "elevator") : cmGet (stepElevator t m) k = cmGet m k := by
  unfold stepElevator
  dsimp only
  split <;> split <;> simp [cmGet_dictSet_ne _ _ h]

theorem cmGet_stepAreaMax (t : Str) (m : CondMap) {k : String}
    (h : k ≠ "max_area") : cmGet (stepAreaMax t m) k = cmGet m k := by
  unfold stepAreaMax
  split <;> simp [cmGet_dictSet_ne _ _ h]

theorem cmGet_stepAreaRange (t : Str) (m : CondMap) {k : String}
    (h1 : k ≠ "min_area") (h2 : k ≠ "max_area") :
    cmGet (stepAreaRange t m) k = cmGet m k := by
  unfold stepAreaRange
  split <;> simp [cmGet_dictSet_ne _ _ h1, cmGet_dictSet_ne _ _ h2]

theorem cmGet_stepCommunity (t : Str) (m : CondMap) {k : String}
    (h : k ≠ "community") : cmGet (stepCommunity t m) k = cmGet m k := by
  unfold stepCommunity
  split <;> simp [cmGet_dictSet_ne _ _ h]

/-! ## Lemmas: district accumulation -/

theorem finditerAux_mem (alts : List Str) :
    ∀ (l : Str) (skip : Nat) (x : Str), x ∈ finditerAux alts l skip → x ∈ alts := by
  intro l
  induction l with
  | nil => intro skip x hx; simp [finditerAux] at hx
  | cons c rest ih =>
    intro skip x hx
    cases skip with
    | succ n => exact ih n x hx
    | zero =>
      have he : finditerAux alts (c :: rest) 0
          = match alts.find? (fun a => a.isPrefixOf (c :: rest)) with
            | some a => a :: finditerAux alts rest (a.length - 1)
            | none => finditerAux alts rest 0 := rfl
      rw [he] at hx
      cases hf : alts.find? (fun a => a.isPrefixOf (c :: rest)) with
      | none => rw [hf] at hx; exact ih 0 x hx
      | some a =>
        rw [hf] at hx
        rcases List.mem_cons.mp hx with h | h
        · subst h; exact List.mem_of_find?_eq_some hf
        · exact ih _ x h

theorem DISTRICTS_comma_free : ∀ d ∈ DISTRICTS, ',' ∉ d := by decide

theorem districtFold_some (ms : List Str) :
    ∀ (cs : CondMap) (acc : List Str), acc ≠ [] →
    cmGet cs "district" = some (.vstr ⟨joinComma (dedupFirst acc)⟩) →
    (∀ p ∈ acc ++ ms, ',' ∉ p) →
    cmGet (ms.foldl districtStepOne cs) "district"
      = some (.vstr ⟨joinComma (dedupFirst (acc ++ ms))⟩) := by
  induction ms with
  | nil => intro cs acc _ hv _; simpa using hv
  | cons d ms ih =>
    intro cs acc hacc hv hcf
    rw [List.foldl_cons]
    have hdedupne : dedupFirst acc ≠ [] := by
      cases acc with
      | nil => exact absurd rfl hacc
      | cons a as => exact dedupFirst_ne_nil
    have hsplit : splitComma (joinComma (dedupFirst acc)) = dedupFirst acc := by
      apply splitComma_joinComma _ hdedupne
      intro p hp
      exact hcf p (List.mem_append_left _ (mem_dedupAux hp))
    have hstep : districtStepOne cs d
        = dictSet cs "district" (.vstr ⟨joinComma (dedupFirst (acc ++ [d]))⟩) := by
      unfold districtStepOne
      rw [hv]
      show dictSet cs "district"
          (.vstr ⟨joinComma (dedupFirst (splitComma (joinComma (dedupFirst acc)) ++ [d]))⟩) = _
      rw [hsplit, dedupFirst_append_dedupFirst]
    rw [hstep]
    have hres := ih (dictSet cs "district" (.vstr ⟨joinComma (dedupFirst (acc ++ [d]))⟩))
      (acc ++ [d]) (by simp) (cmGet_dictSet_same _ _ _)
      (by
        intro p hp
        apply hcf p
        simp only [List.mem_append, List.mem_cons, List.mem_singleton] at hp ⊢
        tauto)
    rw [hres, List.append_assoc]
    rfl

theorem districtFold_from_none (ms : List Str) (cs : CondMap)
    (h : cmGet cs "district" = none) (hcf : ∀ p ∈ ms, ',' ∉ p) :
    cmGet (ms.foldl districtStepOne cs) "district"
      = if ms = [] then none else some (.vstr ⟨joinComma (dedupFirst ms)⟩) := by
  cases ms with
  | nil => simpa using h
  | cons d ms' =>
    rw [List.foldl_cons]
    have hstep : districtStepOne cs d = dictSet cs "district" (.vstr ⟨d⟩) := by
      unfold districtStepOne; rw [h]
    rw [hstep]
    have hv : cmGet (dictSet cs "district" (.vstr ⟨d⟩)) "district"
        = some (.vstr ⟨joinComma (dedupFirst [d])⟩) := cmGet_dictSet_same _ _ _
    have hres := districtFold_some ms' (dictSet cs "district" (.vstr ⟨d⟩)) [d] (by simp) hv
      (by intro p hp; exact hcf p (by simpa using hp))
    simpa using hres

theorem stepDistrict_char (t : Str) :
    cmGet (stepDistrict t []) "district"
      = if finditerAlts DISTRICTS t = [] then none
        else some (.vstr ⟨joinComma (dedupFirst (finditerAlts DISTRICTS t))⟩) := by
  have hmem : ∀ p ∈ finditerAlts DISTRICTS t, ',' ∉ p := by
    intro p hp
    exact DISTRICTS_comma_free p (finditerAux_mem DISTRICTS t 0 p hp)
  have hfold := districtFold_from_none (finditerAlts DISTRICTS t) [] rfl hmem
  unfold stepDistrict
  dsimp only
  cases hms : finditerAlts DISTRICTS t with
  | nil => rfl
  | cons d ms' =>
    rw [hms] at hfold hmem
    rw [if_neg (by simp)] at hfold
    rw [if_neg (by simp)]
    rw [hfold]
    have hdne : dedupFirst (d :: ms') ≠ [] := dedupFirst_ne_nil
    have hcf : ∀ p ∈ dedupFirst (d :: ms'), ',' ∉ p :=
      fun p hp => hmem p (mem_dedupAux hp)
    have hsplit : splitComma (joinComma (dedupFirst (d :: ms'))) = dedupFirst (d :: ms') :=
      splitComma_joinComma _ hdne hcf
    show cmGet
        (if ',' ∈ pyAsStr (PyVal.vstr ⟨joinComma (dedupFirst (d :: ms'))⟩) then _ else _)
        "district" = _
    split
    · rw [cmGet_dictSet_same]
      show some (PyVal.vstr
        ⟨joinComma (dedupFirst (splitComma (joinComma (dedupFirst (d :: ms')))))⟩) = _
      rw [hsplit, dedupFirst_idem]
    · rw [hfold]

/-! ## Lemmas: extractor key discipline -/

theorem keys_one_dictSet {m : CondMap} {k1 k : String} {v1 : PyVal}
    (h1 : k1 ∈ FIELD_NAMES) (hk : k ∈ (dictSet m k1 v1).map Prod.fst) :
    k ∈ FIELD_NAMES ∨ k ∈ m.map Prod.fst := by
  rcases mem_keys_dictSet _ _ _ _ hk with h | h
  · subst h; exact Or.inl h1
  · exact Or.inr h

theorem keys_two_dictSets {m : CondMap} {k1 k2 k : String} {v1 v2 : PyVal}
    (h1 : k1 ∈ FIELD_NAMES) (h2 : k2 ∈ FIELD_NAMES)
    (hk : k ∈ (dictSet (dictSet m k1 v1) k2 v2).map Prod.fst) :
    k ∈ FIELD_NAMES ∨ k ∈ m.map Prod.fst := by
  rcases mem_keys_dictSet _ _ _ _ hk with h | h
  · subst h; exact Or.inl h2
  · exact keys_one_dictSet h1 h

theorem keys_districtStepOne (m : CondMap) (d : Str) :
    ∀ k ∈ (districtStepOne m d).map Prod.fst, k ∈ FIELD_NAMES ∨ k ∈ m.map Prod.fst := by
  intro k hk
  unfold districtStepOne at hk
  split at hk <;>
  · rcases mem_keys_dictSet _ _ _ _ hk with h | h
    · subst h; exact Or.inl (by decide)
    · exact Or.inr h

theorem keys_stepDistrict (t : Str) (m : CondMap) :
    ∀ k ∈ (stepDistrict t m).map Prod.fst, k ∈ FIELD_NAMES ∨ k ∈ m.map Prod.fst := by
  have hfold : ∀ (ms : List Str) (m0 : CondMap),
      ∀ k ∈ ((ms.foldl districtStepOne m0).map Prod.fst),
        k ∈ FIELD_NAMES ∨ k ∈ m0.map Prod.fst := by
    intro ms
    induction ms with
    | nil => intro m0 k h; exact Or.inr h
    | cons d ms ih =>
      intro m0 k h
      rw [List.foldl_cons] at h
      rcases ih _ k h with h1 | h1
      · exact Or.inl h1
      · exact keys_districtStepOne m0 d k h1
  intro k hk
  unfold stepDistrict at hk
  dsimp only at hk
  split at hk
  · split at hk
    · rcases mem_keys_dictSet _ _ _ _ hk with h | h
      · subst h; exact Or.inl (by decide)
      · exact hfold _ m k h
    · exact hfold _ m k hk
  · exact hfold _ m k hk

theorem keys_landmarkStepOne (t : Str) (m : CondMap) (name : Str) :
    ∀ k ∈ (landmarkStepOne t m name).map Prod.fst, k ∈ FIELD_NAMES ∨ k ∈ m.map Prod.fst := by
  intro k hk
  unfold landmarkStepOne at hk
  dsimp only at hk
  split at hk <;> split at hk
  · exact keys_two_dictSets (by decide) (by decide) hk
  · exact keys_one_dictSet (by decide) hk
  · exact keys_one_dictSet (by decide) hk
  · exact Or.inr hk

theorem keys_stepLandmark (t : Str) (m : CondMap) :
    ∀ k ∈ (stepLandmark t m).map Prod.fst, k ∈ FIELD_NAMES ∨ k ∈ m.map Prod.fst := by
  unfold stepLandmark
  generalize finditerAlts LANDMARKS t = ms
  induction ms generalizing m with
  | nil => intro k h; exact Or.inr h
  | cons d ms ih =>
    intro k h
    rw [List.foldl_cons] at h
    rcases ih _ k h with h1 | h1
    · exact Or.inl h1
    · exact keys_landmarkStepOne t m d k h1

theorem keys_stepPriceMax (t : Str) (m : CondMap) :
    ∀ k ∈ (stepPriceMax t m).map Prod.fst, k ∈ FIELD_NAMES ∨ k ∈ m.map Prod.fst := by
  intro k hk
  unfold stepPriceMax at hk
  split at hk
  · rcases mem_keys_dictSet _ _ _ _ hk with h | h
    · subst h; exact Or.inl (by decide)
    · exact Or.inr h
  · exact Or.inr hk

theorem keys_stepPriceRange (t : Str) (m : CondMap) :
    ∀ k ∈ (stepPriceRange t m).map Prod.fst, k ∈ FIELD_NAMES ∨ k ∈ m.map Prod.fst := by
  intro k hk
  unfold stepPriceRange at hk
  split at hk
  · rcases mem_keys_dictSet _ _ _ _ hk with h | h
    · subst h; exact Or.inl (by decide)
    · rcases mem_keys_dictSet _ _ _ _ h with h1 | h1
      · subst h1; exact Or.inl (by decide)
      · exact Or.inr h1
  · exact Or.inr hk

theorem keys_stepBedrooms (t : Str) (m : CondMap) :
    ∀ k ∈ (stepBedrooms t m).map Prod.fst, k ∈ FIELD_NAMES ∨ k ∈ m.map Prod.fst := by
  intro k hk
  unfold stepBedrooms at hk
  split at hk
  · rcases mem_keys_dictSet _ _ _ _ hk with h | h
    · subst h; exact Or.inl (by decide)
    · exact Or.inr h
  · exact Or.inr hk

theorem keys_stepRentalType (t : Str) (m : CondMap) :
    ∀ k ∈ (stepRentalType t m).map Prod.fst, k ∈ FIELD_NAMES ∨ k ∈ m.map Prod.fst := by
  intro k hk
  unfold stepRentalType at hk
  dsimp only at hk
  split at hk <;> split at hk
  · exact keys_two_dictSets (by decide) (by decide) hk
  · exact keys_one_dictSet (by decide) hk
  · exact keys_one_dictSet (by decide) hk
  · exact Or.inr hk

theorem keys_stepSubway (t : Str) (m : CondMap) :
    ∀ k ∈ (stepSubway t m).map Prod.fst, k ∈ FIELD_NAMES ∨ k ∈ m.map Prod.fst := by
  intro k hk
  unfold stepSubway at hk
  split at hk
  · rcases mem_keys_dictSet _ _ _ _ hk with h | h
    · subst h; exact Or.inl (by decide)
    · exact Or.inr h
  · exact Or.inr hk

theorem keys_stepCommute (t : Str) (m : CondMap) :
    ∀ k ∈ (stepCommute t m).map Prod.fst, k ∈ FIELD_NAMES ∨ k ∈ m.map Prod.fst := by
  intro k hk
  unfold stepCommute at hk
  split at hk
  · rcases mem_keys_dictSet _ _ _ _ hk with h | h
    · subst h; exact Or.inl (by decide)
    · exact Or.inr h
  · exact Or.inr hk

theorem keys_stepDecoration (t : Str) (m : CondMap) :
    ∀ k ∈ (stepDecoration t m).map Prod.fst, k ∈ FIELD_NAMES ∨ k ∈ m.map Prod.fst := by
  intro k hk
  unfold stepDecoration at hk
  dsimp only at hk
  split at hk <;> split at hk
  · exact keys_two_dictSets (by decide) (by decide) hk
  · exact keys_one_dictSet (by decide) hk
  · exact keys_one_dictSet (by decide) hk
  · exact Or.inr hk

theorem keys_stepOrientation (t : Str) (m : CondMap) :
    ∀ k ∈ (stepOrientation t m).map Prod.fst, k ∈ FIELD_NAMES ∨ k ∈ m.map Prod.fst := by
  intro k hk
  unfold stepOrientation at hk
  split at hk
  · rcases mem_keys_dictSet _ _ _ _ hk with h | h
    · subst h; exact Or.inl (by decide)
    · exact Or.inr h
  · exact Or.inr hk

theorem keys_stepElevator (t : Str) (m : CondMap) :
    ∀ k ∈ (stepElevator t m).map Prod.fst, k ∈ FIELD_NAMES ∨ k ∈ m.map Prod.fst := by
  intro k hk
  unfold stepElevator at hk
  dsimp only at hk
  split at hk <;> split at hk
  · exact keys_two_dictSets (by decide) (by decide) hk
  · exact keys_one_dictSet (by decide) hk
  · exact keys_one_dictSet (by decide) hk
  · exact Or.inr hk

theorem keys_stepAreaMax (t : Str) (m : CondMap) :
    ∀ k ∈ (stepAreaMax t m).map Prod.fst, k ∈ FIELD_NAMES ∨ k ∈ m.map Prod.fst := by
  intro k hk
  unfold stepAreaMax at hk
  split at hk
  · rcases mem_keys_dictSet _ _ _ _ hk with h | h
    · subst h; exact Or.inl (by decide)
    · exact Or.inr h
  · exact Or.inr hk

theorem keys_stepAreaRange (t : Str) (m : CondMap) :
    ∀ k ∈ (stepAreaRange t m).map Prod.fst, k ∈ FIELD_NAMES ∨ k ∈ m.map Prod.fst := by
  intro k hk
  unfold stepAreaRange at hk
  split at hk
  · rcases mem_keys_dictSet _ _ _ _ hk with h | h
    · subst h; exact Or.inl (by decide)
    · rcases mem_keys_dictSet _ _ _ _ h with h1 | h1
      · subst h1; exact Or.inl (by decide)
      · exact Or.inr h1
  · exact Or.inr hk

theorem keys_stepCommunity (t : Str) (m : CondMap) :
    ∀ k ∈ (stepCommunity t m).map Prod.fst, k ∈ FIELD_NAMES ∨ k ∈ m.map Prod.fst := by
  intro k hk
  unfold stepCommunity at hk
  split at hk
  · rcases mem_keys_dictSet _ _ _ _ hk with h | h
    · subst h; exact Or.inl (by decide)
    · exact Or.inr h
  · exact Or.inr hk

/-! ## Lemmas: a digit always triggers the bare-number price alternative -/

theorem priceAlt3_isSome_of_digit (c : Char) (rest : Str) (h : c.isDigit = true) :
    (priceAlt3 (c :: rest)).isSome = true := by
  simp [priceAlt3, List.takeWhile_cons, h]

theorem priceMatchAt_isSome_of_digit (c : Char) (rest : Str) (h : c.isDigit = true) :
    (priceMatchAt (c :: rest)).isSome = true := by
  unfold priceMatchAt
  cases h1 : priceAlt1 (c :: rest) with
  | some n => simp
  | none =>
    cases h2 : priceAlt2 (c :: rest) with
    | some n => simp
    | none => exact priceAlt3_isSome_of_digit c rest h

theorem priceSearch_isSome_of_digit :
    ∀ (l : Str), (∃ c ∈ l, c.isDigit = true) → (priceSearch l).isSome = true := by
  intro l
  induction l with
  | nil => rintro ⟨c, hc, _⟩; simp at hc
  | cons c rest ih =>
    rintro ⟨d, hd, hdig⟩
    have he : priceSearch (c :: rest)
        = match priceMatchAt (c :: rest) with
          | some n => some n
          | none => priceSearch rest := rfl
    rw [he]
    cases hm : priceMatchAt (c :: rest) with
    | some n => simp
    | none =>
      rcases List.mem_cons.mp hd with h1 | h1
      · subst h1
        have h2 := priceMatchAt_isSome_of_digit d rest hdig
        rw [hm] at h2
        cases h2
      · exact ih ⟨d, h1, hdig⟩

theorem stepPriceRange_maxprice_isSome (t : Str) (m : CondMap)
    (h : (cmGet m "max_price").isSome = true) :
    (cmGet (stepPriceRange t m) "max_price").isSome = true := by
  unfold stepPriceRange
  split
  · simp [cmGet_dictSet_same]
  · exact h

theorem mem_dropWhile_of_not {p : α → Bool} {c : α} :
    ∀ {l : List α}, c ∈ l → p c = false → c ∈ l.dropWhile p := by
  intro l
  induction l with
  | nil => intro h _; simp at h
  | cons x rest ih =>
    intro h hc
    by_cases hx : p x
    · rw [List.dropWhile_cons, if_pos hx]
      rcases List.mem_cons.mp h with h1 | h1
      · subst h1; rw [hx] at hc; cases hc
      · exact ih h1 hc
    · rw [List.dropWhile_cons, if_neg hx]
      exact h

theorem mem_stripL_of_not_ws {c : Char} {l : Str} (h : c ∈ l) (hc : isWs c = false) :
    c ∈ stripL l := by
  unfold stripL
  rw [List.mem_reverse]
  apply mem_dropWhile_of_not _ hc
  rw [List.mem_reverse]
  exact mem_dropWhile_of_not h hc

theorem isDigit_not_ws {c : Char} (h : c.isDigit = true) : isWs c = false := by
  by_contra hw
  have hw' : isWs c = true := by simpa using hw
  simp [isWs] at hw'
  rcases hw' with h1 | h1 | h1 | h1 | h1 | h1 <;> subst h1 <;> exact absurd h (by decide)

/-! ## Lemmas: sessions and bounded history -/

theorem getSession_setSession_same (ss : Sessions) (sid : String) (s : Session) :
    getSession (setSession ss sid s) sid = s := by
  induction ss with
  | nil => simp [setSession, getSession]
  | cons p rest ih =>
    obtain ⟨k, s0⟩ := p
    by_cases h : k = sid <;> simp [setSession, getSession, h, ih]

theorem history_append_session (ss : Sessions) (sid u a : String) :
    (getSession (_append_session_history ss sid u a) sid).history
      = lastN (MAX_HISTORY_TURNS * 2)
          ((getSession ss sid).history ++ [(Role.user, u), (Role.assistant, a)]) := by
  unfold _append_session_history
  rw [getSession_setSession_same]

theorem conditions_append_session (ss : Sessions) (sid u a : String) :
    (getSession (_append_session_history ss sid u a) sid).conditions
      = (getSession ss sid).conditions := by
  unfold _append_session_history
  rw [getSession_setSession_same]

theorem lastN_of_length_le {k : Nat} {l : List α} (h : l.length ≤ k) : lastN k l = l := by
  unfold lastN
  rw [List.take_of_length_le (by simpa using h), List.reverse_reverse]

theorem lastN_length_le (k : Nat) (l : List α) : (lastN k l).length ≤ k := by
  unfold lastN
  simp [List.length_take]

theorem lastN_suffix (k : Nat) (l : List α) : lastN k l <:+ l := by
  refine ⟨(l.reverse.drop k).reverse, ?_⟩
  rw [lastN, ← List.reverse_append, List.take_append_drop, List.reverse_reverse]

theorem lastN_append_lastN (k : Nat) (xs ys : List α) :
    lastN k (lastN k xs ++ ys) = lastN k (xs ++ ys) := by
  unfold lastN
  rw [List.reverse_append, List.reverse_reverse, List.reverse_append]
  congr 1
  rw [List.take_append_eq_append_take, List.take_append_eq_append_take]
  congr 1
  rw [List.take_take]
  congr 1
  omega

/-! ## Claims C3, C4, C5 -/

/-- C4 counterexample: the Normalizer is not even total on raw maps, so it
cannot be idempotent for every raw map: on `{"min_price": "inf"}` and on
`{"max_price": "1e400"}` the coercion `int(float(v))` raises
`OverflowError` (`float` yields an infinity, `int()` of an infinity raises,
and lines 290-292 catch only `TypeError`/`ValueError`), so `normalize(x)`
returns nothing at all. -/
theorem c4_counterexample :
    _normalize_llm_conditions_exc [("min_price", .vstr "inf")] = .error .overflowError
    ∧ _normalize_llm_conditions_exc [("max_price", .vstr "1e400")] = .error .overflowError :=
  ⟨rfl, rfl⟩

/-- C4 (amended): wherever the Normalizer returns at all it is idempotent:
if `normalize(x)` completes with result `y` — that is, no field triggers the
uncaught `OverflowError` of `int(float(·))` on an infinite float or an
out-of-double-range integer — then `normalize(y)` completes and returns `y`
unchanged. -/
theorem c4_normalizer_idempotent_amended (raw y : CondMap)
    (h : _normalize_llm_conditions_exc raw = .ok y) :
    _normalize_llm_conditions_exc y = .ok y := by
  have h' : normFoldExc [] raw = .ok y := h
  have hv : raw.foldl (fun conds kv => normStep conds kv.1 kv.2) [] = y :=
    normFoldExc_ok h'
  have hy : ∀ p ∈ y, canonVal p.1 p.2 := by
    rw [← hv]
    exact normFold_canon raw [] (by simp)
  have hyn : (y.map Prod.fst).Nodup := by
    rw [← hv]
    exact normFold_nodup raw [] (by simp)
  have hfix := normFoldExc_fixed y [] hy (by simpa using hyn)
  simpa [_normalize_llm_conditions_exc] using hfix

/-- C4 witness: the amended idempotence evaluated at a concrete raw map
exercising an out-of-schema key, a null, a blank string, a numeric string
and a float. -/
theorem c4_normalizer_idempotent_amended_witness :
    _normalize_llm_conditions_exc
      [("foo", .vstr "bar"), ("district", .vnull), ("area", .vstr "  "),
       ("min_price", .vstr "3000"), ("max_price", .vnum (mkRat 9 2)), ("bedrooms", .vint 2)]
      = .ok [("min_price", .vint 3000), ("max_price", .vint 4), ("bedrooms", .vstr "2")]
    ∧ _normalize_llm_conditions_exc
        [("min_price", .vint 3000), ("max_price", .vint 4), ("bedrooms", .vstr "2")]
      = .ok [("min_price", .vint 3000), ("max_price", .vint 4), ("bedrooms", .vstr "2")] :=
  ⟨rfl,
   c4_normalizer_idempotent_amended
     [("foo", .vstr "bar"), ("district", .vnull), ("area", .vstr "  "),
      ("min_price", .vstr "3000"), ("max_price", .vnum (mkRat 9 2)), ("bedrooms", .vint 2)]
     [("min_price", .vint 3000), ("max_price", .vint 4), ("bedrooms", .vstr "2")] rfl⟩

/-- C3 counterexample: the merge identities fail on raw maps.
`merge(P, {})` returns `P` itself without normalization, so a key outside
the field enumeration survives on the left while `normalize(P)` drops it;
and `merge({}, N)` keeps a numeric string verbatim while `normalize(N)`
coerces it to an integer. -/
theorem c3_counterexample :
    _merge_conditions [("foo", .vstr "bar")] [] ≠
      _normalize_llm_conditions [("foo", .vstr "bar")]
    ∧ _merge_conditions [] [("min_price", .vstr "3000")] ≠
      _normalize_llm_conditions [("min_price", .vstr "3000")] := by
  decide

/-- C3 (amended): `merge(P, {}) = P` for every raw map `P` (a copy of the
previous conditions, not a normalization), and the claimed identities hold
on normalizer outputs: `merge({}, normalize(N)) = normalize(N)` and
`merge(normalize(P), {}) = normalize(P)`. -/
theorem c3_merge_identities_amended :
    (∀ P : CondMap, _merge_conditions P [] = P)
    ∧ (∀ raw : CondMap,
        _merge_conditions [] (_normalize_llm_conditions raw) = _normalize_llm_conditions raw
        ∧ _merge_conditions (_normalize_llm_conditions raw) [] = _normalize_llm_conditions raw) := by
  constructor
  · intro P; simp [_merge_conditions]
  · intro raw
    constructor
    · unfold _merge_conditions
      by_cases h : _normalize_llm_conditions raw = []
      · simp [h]
      · rw [if_neg h]
        have h1 := normFold_canon raw [] (by simp)
        have h2 := normFold_nodup raw [] (by simp)
        have h3 := mergeFold_fixed (_normalize_llm_conditions raw) [] h1 (by simpa using h2)
        simpa using h3
    · simp [_merge_conditions]

/-- C6: for every input string the Rule Extractor terminates and returns a
condition map whose keys all belong to the fixed sixteen-field enumeration
(the extractor is a total Lean function, so totality is by construction);
on no matches (e.g. the empty input) it returns the empty map. -/
theorem c6_extractor_schema :
    (∀ t : String,
      ((extract_conditions t).map Prod.fst).all (fun k => decide (k ∈ FIELD_NAMES)) = true)
    ∧ extract_conditions "" = [] := by
  constructor
  · intro t
    rw [List.all_eq_true]
    intro k hk
    rw [decide_eq_true_eq]
    unfold extract_conditions at hk
    dsimp only at hk
    rcases keys_stepCommunity _ _ k hk with h | h
    · exact h
    rcases keys_stepAreaRange _ _ k h with h | h
    · exact h
    rcases keys_stepAreaMax _ _ k h with h | h
    · exact h
    rcases keys_stepElevator _ _ k h with h | h
    · exact h
    rcases keys_stepOrientation _ _ k h with h | h
    · exact h
    rcases keys_stepDecoration _ _ k h with h | h
    · exact h
    rcases keys_stepCommute _ _ k h with h | h
    · exact h
    rcases keys_stepSubway _ _ k h with h | h
    · exact h
    rcases keys_stepRentalType _ _ k h with h | h
    · exact h
    rcases keys_stepBedrooms _ _ k h with h | h
    · exact h
    rcases keys_stepPriceRange _ _ k h with h | h
    · exact h
    rcases keys_stepPriceMax _ _ k h with h | h
    · exact h
    rcases keys_stepLandmark _ _ k h with h | h
    · exact h
    rcases keys_stepDistrict _ _ k h with h | h
    · exact h
    simp at h
  · decide

/-- C7: for every input text, the district value is exactly the comma-join of
the de-duplicated (first occurrence kept, order preserved) list of all
district-vocabulary matches found in the stripped text, and is absent when
there is no match; in particular "海淀 朝阳" yields district = "海淀,朝阳". -/
theorem c7_district_accumulation :
    (∀ t : String,
      cmGet (extract_conditions t) "district"
        = if finditerAlts DISTRICTS (stripL t.data) = [] then none
          else some (.vstr ⟨joinComma (dedupFirst (finditerAlts DISTRICTS (stripL t.data)))⟩))
    ∧ cmGet (extract_conditions "海淀 朝阳") "district" = some (.vstr "海淀,朝阳") := by
  constructor
  · intro t
    unfold extract_conditions
    dsimp only
    rw [cmGet_stepCommunity _ _ (by decide)]
    rw [cmGet_stepAreaRange _ _ (by decide) (by decide)]
    rw [cmGet_stepAreaMax _ _ (by decide)]
    rw [cmGet_stepElevator _ _ (by decide)]
    rw [cmGet_stepOrientation _ _ (by decide)]
    rw [cmGet_stepDecoration _ _ (by decide)]
    rw [cmGet_stepCommute _ _ (by decide)]
    rw [cmGet_stepSubway _ _ (by decide)]
    rw [cmGet_stepRentalType _ _ (by decide)]
    rw [cmGet_stepBedrooms _ _ (by decide)]
    rw [cmGet_stepPriceRange _ _ (by decide) (by decide)]
    rw [cmGet_stepPriceMax _ _ (by decide)]
    rw [cmGet_stepLandmark _ _ (by decide) (by decide)]
    exact stepDistrict_char (stripL t.data)
  · decide

/-- C10: every input whose (stripped) text contains an ASCII decimal digit
produces a `max_price` entry, because the third alternative of the price
pattern matches any bare digit run; in particular "3室" yields
`max_price = 3` alongside `bedrooms = "3"`. -/
theorem c10_bare_digit_sets_max_price :
    (∀ t : String, (∃ c ∈ t.data, c.isDigit = true) →
      (cmGet (extract_conditions t) "max_price").isSome = true)
    ∧ cmGet (extract_conditions "3室") "max_price" = some (.vint 3)
    ∧ cmGet (extract_conditions "3室") "bedrooms" = some (.vstr "3") := by
  refine ⟨?_, by decide, by decide⟩
  rintro t ⟨c, hc, hdig⟩
  unfold extract_conditions
  dsimp only
  rw [cmGet_stepCommunity _ _ (by decide)]
  rw [cmGet_stepAreaRange _ _ (by decide) (by decide)]
  rw [cmGet_stepAreaMax _ _ (by decide)]
  rw [cmGet_stepElevator _ _ (by decide)]
  rw [cmGet_stepOrientation _ _ (by decide)]
  rw [cmGet_stepDecoration _ _ (by decide)]
  rw [cmGet_stepCommute _ _ (by decide)]
  rw [cmGet_stepSubway _ _ (by decide)]
  rw [cmGet_stepRentalType _ _ (by decide)]
  rw [cmGet_stepBedrooms _ _ (by decide)]
  apply stepPriceRange_maxprice_isSome
  have hsearch : (priceSearch (stripL t.data)).isSome = true :=
    priceSearch_isSome_of_digit _
      ⟨c, mem_stripL_of_not_ws hc (isDigit_not_ws hdig), hdig⟩
  unfold stepPriceMax
  cases hps : priceSearch (stripL t.data) with
  | none => rw [hps] at hsearch; cases hsearch
  | some n => simp [cmGet_dictSet_same]

/-- C10 witness: the universal part instantiated at "3室", whose text
contains the ASCII digit 3. -/
theorem c10_bare_digit_sets_max_price_witness :
    (∃ c ∈ ("3室" : String).data, c.isDigit = true)
    ∧ (cmGet (extract_conditions "3室") "max_price").isSome = true :=
  ⟨by decide, c10_bare_digit_sets_max_price.1 "3室" (by decide)⟩

/-- C5: the Rule Extractor maps "2000到4000" to `min_price = 2000` and
`max_price = 4000`, and "5000以内" to `max_price = 5000` with no
`min_price`; the at-most pattern alone yields `max_price = 2000` on the
first input, so the range pattern, evaluated afterwards, overwrites its
max-bound result. -/
theorem c5_price_patterns :
    extract_conditions "2000到4000" = [("max_price", .vint 4000), ("min_price", .vint 2000)]
    ∧ extract_conditions "5000以内" = [("max_price", .vint 5000)]
    ∧ priceSearch (stripL "2000到4000".data) = some 2000 := by
  decide

/-! ## Claim C9 -/

/-- C9: for every session key and every sequence of appended turns, the
stored history equals the last `MAX_HISTORY_TURNS * 2` entries of the full
entry stream; hence it never exceeds `2·N` entries and is a suffix of the
stream (oldest entries dropped first, arrival order preserved). -/
theorem c9_history_bound (sid : String) (ss0 : Sessions) (turns : List (String × String))
    (h0 : (getSession ss0 sid).history.length ≤ MAX_HISTORY_TURNS * 2) :
    (getSession (turns.foldl (fun ss t => _append_session_history ss sid t.1 t.2) ss0) sid).history
      = lastN (MAX_HISTORY_TURNS * 2) ((getSession ss0 sid).history ++ turnEntries turns)
    ∧ (getSession (turns.foldl (fun ss t => _append_session_history ss sid t.1 t.2) ss0)
        sid).history.length ≤ MAX_HISTORY_TURNS * 2
    ∧ (getSession (turns.foldl (fun ss t => _append_session_history ss sid t.1 t.2) ss0) sid).history
        <:+ ((getSession ss0 sid).history ++ turnEntries turns) := by
  have hmain : ∀ (ts : List (String × String)) (ss : Sessions),
      (getSession ss sid).history.length ≤ MAX_HISTORY_TURNS * 2 →
      (getSession (ts.foldl (fun ss t => _append_session_history ss sid t.1 t.2) ss) sid).history
        = lastN (MAX_HISTORY_TURNS * 2) ((getSession ss sid).history ++ turnEntries ts) := by
    intro ts
    induction ts with
    | nil =>
      intro ss h
      simp only [List.foldl_nil, turnEntries, List.append_nil]
      exact (lastN_of_length_le h).symm
    | cons t ts ih =>
      intro ss h
      rw [List.foldl_cons]
      rw [ih (_append_session_history ss sid t.1 t.2)
        (by rw [history_append_session]; exact lastN_length_le _ _)]
      rw [history_append_session]
      rw [lastN_append_lastN, List.append_assoc]
      rfl
  refine ⟨hmain turns ss0 h0, ?_, ?_⟩
  · rw [hmain turns ss0 h0]
    exact lastN_length_le _ _
  · rw [hmain turns ss0 h0]
    exact lastN_suffix _ _

/-- C9 witness: eleven appended turn pairs against an initially absent
session stay within the 20-entry bound. -/
theorem c9_history_bound_witness :
    (getSession ([] : Sessions) "s").history.length ≤ MAX_HISTORY_TURNS * 2
    ∧ (getSession
        (([("u1", "a1"), ("u2", "a2"), ("u3", "a3"), ("u4", "a4"), ("u5", "a5"),
           ("u6", "a6"), ("u7", "a7"), ("u8", "a8"), ("u9", "a9"), ("u10", "a10"),
           ("u11", "a11")].foldl
          (fun ss t => _append_session_history ss "s" t.1 t.2) ([] : Sessions))) "s").history.length
        ≤ MAX_HISTORY_TURNS * 2 :=
  ⟨by decide,
   (c9_history_bound "s" []
      [("u1", "a1"), ("u2", "a2"), ("u3", "a3"), ("u4", "a4"), ("u5", "a5"),
       ("u6", "a6"), ("u7", "a7"), ("u8", "a8"), ("u9", "a9"), ("u10", "a10"),
       ("u11", "a11")] (by decide)).2.1⟩

/-! ## Claim C1 -/

/-- C2 counterexample: a turn on the condition path whose downstream query
completes with a failed result (the result carries an error) still returns
normally and replaces the session's stored conditions with the merge
result: prior conditions {max_price: 5000} become
{max_price: 5000, district: "海淀"} even though the query errored. -/
theorem c2_counterexample :
    agent_reply_with_session (fun _ => [("error", .jstr "连接失败")])
        [("s1", ⟨[], [("max_price", .vint 5000)]⟩)] "f" "s1" "海淀"
      = .ok ("查询出错：连接失败", "s1",
          [("s1", ⟨[(Role.user, "海淀"), (Role.assistant, "查询出错：连接失败")],
                   [("max_price", .vint 5000), ("district", .vstr "海淀")]⟩)])
    ∧ errTruthy [("error", .jstr "连接失败")] = true
    ∧ ([("max_price", PyVal.vint 5000), ("district", PyVal.vstr "海淀")] : CondMap)
        ≠ [("max_price", PyVal.vint 5000)] :=
  ⟨rfl, rfl, by decide⟩

/-- C2 (amended): on the condition-query path (no special intent), whenever
the query router returns at all — it can instead raise `TypeError` when a
non-string value reaches the subprocess argument list, or `AttributeError`
in the landmark id extraction, and then the turn produces no reply and
writes nothing — the turn returns the formatter's reply on the query result
and writes the merged conditions to the session whether or not that result
carries an error; in particular on a failed (but returning) query the
previous conditions are not preserved but replaced by the merge result. -/
theorem c2_failed_query_amended (oracle : ToolCall → JObj) (ss : Sessions)
    (fresh sid msg : String) (qres : JObj × List ToolCall)
    (h1 : stripS sid ≠ "")
    (h2 : _is_special_intent msg = "")
    (h3 : _merge_conditions (getSession ss sid).conditions (extract_conditions msg) ≠ [])
    (h4 : build_and_run_query oracle
            (_merge_conditions (getSession ss sid).conditions (extract_conditions msg))
          = .ok qres)
    (_h5 : errTruthy qres.1 = true) :
    agent_reply_with_session oracle ss fresh sid msg
      = .ok (format_reply qres.1
               (_merge_conditions (getSession ss sid).conditions (extract_conditions msg)),
             sid,
             _append_session_history
               (setSession ss sid
                 { getSession ss sid with
                   conditions :=
                     _merge_conditions (getSession ss sid).conditions (extract_conditions msg) })
               sid msg
               (format_reply qres.1
                 (_merge_conditions (getSession ss sid).conditions (extract_conditions msg))))
    ∧ (getSession
         (_append_session_history
           (setSession ss sid
             { getSession ss sid with
               conditions :=
                 _merge_conditions (getSession ss sid).conditions (extract_conditions msg) })
           sid msg
           (format_reply qres.1
             (_merge_conditions (getSession ss sid).conditions (extract_conditions msg))))
         sid).conditions
      = _merge_conditions (getSession ss sid).conditions (extract_conditions msg) := by
  constructor
  · unfold agent_reply_with_session
    dsimp only
    rw [if_neg h1, h2]
    rw [if_neg (show ¬ ("" : String) = "reset" by decide)]
    rw [if_neg (show ¬ (("" : String) = "rent" ∨ ("" : String) = "terminate"
        ∨ ("" : String) = "detail") by decide)]
    rw [if_neg h3, h4]
  · rw [conditions_append_session, getSession_setSession_same]

/-- C2 witness: the amended statement at a concrete turn whose query
completes with an error result. -/
theorem c2_failed_query_amended_witness :
    _is_special_intent "海淀" = ""
    ∧ (getSession
        (_append_session_history
          (setSession [("s1", ⟨[], [("max_price", PyVal.vint 5000)]⟩)] "s1"
            ⟨[], [("max_price", .vint 5000), ("district", .vstr "海淀")]⟩)
          "s1" "海淀" "查询出错：连接失败") "s1").conditions
      = [("max_price", .vint 5000), ("district", .vstr "海淀")] :=
  ⟨by decide,
   (c2_failed_query_amended (fun _ => [("error", .jstr "连接失败")])
      [("s1", ⟨[], [("max_price", .vint 5000)]⟩)] "f" "s1" "海淀"
      ([("error", .jstr "连接失败")],
       [.byPlatform 20 [("--district", .vstr "海淀"), ("--max_price", .vstr "5000")]])
      (by decide) (by decide) (by decide) rfl rfl).2⟩

/-- C8 counterexample: processing a reset-intent turn does not leave the
session with an empty history — the reset turn itself is appended right
after the clear — although the stored conditions are indeed emptied. -/
theorem c8_counterexample :
    agent_reply_with_session (fun _ => [])
        [("s1", ⟨[(Role.user, "海淀"), (Role.assistant, "ok")], [("district", .vstr "海淀")]⟩)]
        "f" "s1" "重置"
      = .ok ("房源数据已重置。", "s1",
          [("s1", ⟨[(Role.user, "重置"), (Role.assistant, "房源数据已重置。")], []⟩)])
    ∧ ([(Role.user, "重置"), (Role.assistant, "房源数据已重置。")] : List (Role × String)) ≠ [] :=
  ⟨rfl, by decide⟩

/-- C8 (amended): a reset-intent turn completes normally (no crash is
reachable in this branch), leaves the session with empty conditions and with
a history containing exactly the reset turn's own user/assistant pair (all
prior history and conditions are dropped, so no prior conditions carry over
into the next turn's merge). -/
theorem c8_reset_amended (oracle : ToolCall → JObj) (ss : Sessions) (fresh sid msg : String)
    (h1 : stripS sid ≠ "") (h2 : _is_special_intent msg = "reset") :
    agent_reply_with_session oracle ss fresh sid msg
      = .ok (if errTruthy (oracle .houseInit)
             then "重置失败：" ++ pyStrJ (jGetD (oracle .houseInit) "error")
             else "房源数据已重置。",
             sid,
             _append_session_history (setSession ss sid ⟨[], []⟩) sid msg
               (if errTruthy (oracle .houseInit)
                then "重置失败：" ++ pyStrJ (jGetD (oracle .houseInit) "error")
                else "房源数据已重置。"))
    ∧ (getSession (_append_session_history (setSession ss sid ⟨[], []⟩) sid msg
          (if errTruthy (oracle .houseInit)
           then "重置失败：" ++ pyStrJ (jGetD (oracle .houseInit) "error")
           else "房源数据已重置。")) sid).conditions = []
    ∧ (getSession (_append_session_history (setSession ss sid ⟨[], []⟩) sid msg
          (if errTruthy (oracle .houseInit)
           then "重置失败：" ++ pyStrJ (jGetD (oracle .houseInit) "error")
           else "房源数据已重置。")) sid).history
        = [(Role.user, msg),
           (Role.assistant,
            if errTruthy (oracle .houseInit)
            then "重置失败：" ++ pyStrJ (jGetD (oracle .houseInit) "error")
            else "房源数据已重置。")] := by
  refine ⟨?_, ?_, ?_⟩
  · unfold agent_reply_with_session
    dsimp only
    rw [if_neg h1, h2, if_pos rfl]
  · rw [conditions_append_session, getSession_setSession_same]
  · rw [history_append_session, getSession_setSession_same]
    show lastN (MAX_HISTORY_TURNS * 2) ([] ++ [(Role.user, msg), (Role.assistant, _)]) = _
    rw [List.nil_append]
    exact lastN_of_length_le (by simp [MAX_HISTORY_TURNS])

/-- C8 witness: the amended statement at a concrete reset turn over a
session with prior history and conditions. -/
theorem c8_reset_amended_witness :
    _is_special_intent "重置" = "reset"
    ∧ (getSession (_append_session_history
          (setSession [("s1", ⟨[(Role.user, "海淀"), (Role.assistant, "ok")],
              [("district", PyVal.vstr "海淀")]⟩)] "s1" ⟨[], []⟩)
          "s1" "重置" "房源数据已重置。") "s1").conditions = [] :=
  ⟨by decide,
   (c8_reset_amended (fun _ => [])
      [("s1", ⟨[(Role.user, "海淀"), (Role.assistant, "ok")], [("district", .vstr "海淀")]⟩)]
      "f" "s1" "重置" (by decide) (by decide)).2.1⟩

end Dasai
